import Mathlib

/-!
Verification development for `src/lib/assetmanager.js` of the generator-assets
repository: a shallow embedding of the AssetManager state machine (in-flight
render job table, active/idle signaling, derived-component cleanup, full
initialization/reset, and incremental change handling) together with theorems
about the embedded code.

External collaborators (ComponentManager, RenderManager, FileManager,
ErrorManager — their sources are not under src/) are modelled from the spec at
their interface boundary: parsing and derivation are oracle functions in an
environment record, and all calls out to the collaborators are recorded as
explicit `Action`s so that the observable behaviour of the AssetManager is a
trace of actions.
-/

/-- A document layer as used by assetmanager.js: an `id`, an optional `name`
(`layer.name` is used under JavaScript truthiness, so an absent name and the
empty string both count as unnamed), a tag distinguishing adjustment layers
(`layer instanceof AdjustmentLayer`), and an optional reference to the
enclosing group layer (`layer.group`). -/
inductive Layer : Type where
  | mk (id : Nat) (name : Option String) (isAdjustment : Bool) (group : Option Layer)

/-- `layer.id`. -/
def Layer.id : Layer → Nat
  | .mk i _ _ _ => i

/-- `layer.name`. -/
def Layer.name : Layer → Option String
  | .mk _ n _ _ => n

/-- `layer instanceof AdjustmentLayer`. -/
def Layer.isAdjustment : Layer → Bool
  | .mk _ _ a _ => a

/-- `layer.group`. -/
def Layer.group : Layer → Option Layer
  | .mk _ _ _ g => g

/-- JavaScript truthiness of `layer.name`: present and non-empty. -/
def nameTruthy (l : Layer) : Bool :=
  match l.name with
  | none => false
  | some s => s != ""

/-- Translation of `getDependentLayers` (assetmanager.js lines 272-280):
`var dependencies = layer.name ? [layer] : [];
 if (layer.group) dependencies = dependencies.concat(getDependentLayers(layer.group));
 return dependencies;` -/
def getDependentLayers (l : Layer) : List Layer :=
  match l with
  | .mk i n a none => if nameTruthy (.mk i n a none) then [Layer.mk i n a none] else []
  | .mk i n a (some g) =>
      (if nameTruthy (.mk i n a (some g)) then [Layer.mk i n a (some g)] else [])
        ++ getDependentLayers g

/-- The layer itself followed by its chain of `group` ancestors. -/
def selfAndAncestors (l : Layer) : List Layer :=
  match l with
  | .mk i n a none => [Layer.mk i n a none]
  | .mk i n a (some g) => Layer.mk i n a (some g) :: selfAndAncestors g

/-! ### Association lists keyed by `Nat`, modelling JavaScript objects used as
maps (the in-flight `_renderPromises` table, `dependentLayers`,
`specificationsByLayer`). A JavaScript object cannot hold two entries for one
key; assignment to an existing key overwrites. -/

/-- `obj[k]` (`undefined` as `none`). -/
def lookupN {α : Type} (l : List (Nat × α)) (k : Nat) : Option α :=
  (l.find? (fun p => p.1 == k)).map (·.2)

/-- `delete obj[k]`. -/
def eraseN {α : Type} (l : List (Nat × α)) (k : Nat) : List (Nat × α) :=
  l.filter (fun p => p.1 != k)

/-- `obj[k] = v`: overwrite any existing entry for `k`. -/
def insertN {α : Type} (l : List (Nat × α)) (k : Nat) (v : α) : List (Nat × α) :=
  eraseN l k ++ [(k, v)]

/-- The keys of the association list are pairwise distinct. -/
def keysNodup {α : Type} (l : List (Nat × α)) : Prop :=
  (l.map Prod.fst).Nodup

/-! ### Data model: component specifications, components, environment -/

/-- A parsed component specification (the `component` object produced by
`ComponentManager.findAllComponents` before it is added to the catalog).
`hasDefault` models `specification.hasOwnProperty("default")`. -/
structure Spec where
  name : String
  hasDefault : Bool
deriving DecidableEq, Repr

/-- One element of the list returned by `findAllComponents(layer)`: either a
parsed component or a list of parse errors (`result.component` /
`result.errors`, inspected in that order by the source). -/
structure SpecResult where
  component : Option Spec
  errors : List String
deriving DecidableEq, Repr

/-- A (derived) component as submitted for rendering: the fields of the
component object that assetmanager.js reads (`component.id`,
`component.name`, `component.assetPath`, `component.layer.id`). -/
structure Component where
  id : Nat
  name : String
  assetPath : String
  layerId : Nat
deriving DecidableEq, Repr

/-- Modelled from the spec: the external collaborators' behaviour
(componentmanager.js and the derivation of variant components are not under
src/). `findAllComponents` is `ComponentManager.findAllComponents(layer)`
(spec §6 `parseAll`); `addFails` says whether
`ComponentManager.addComponent(layer, spec)` throws, and with which message
(spec §6: `add(layer, spec) -> componentId | fails`); `derived` is
`ComponentManager.getDerivedComponents(componentId)` (spec §6). -/
structure Env where
  findAllComponents : Layer → List SpecResult
  addFails : Nat → Spec → Option String
  derived : Nat → List Component

/-- Modelled from the spec: the mutable state of the Component Catalog — a
mapping from component id to (owning layer id, specification), with fresh ids
assigned on creation (spec §3: component identity is unique, assigned on
creation). -/
structure CMState where
  nextId : Nat
  catalog : List (Nat × (Nat × Spec))
deriving DecidableEq, Repr

/-- Modelled from the spec: `ComponentManager.addComponent(layer, component)`
returns a fresh component id or throws. -/
def addComponent (env : Env) (cm : CMState) (layerId : Nat) (spec : Spec) :
    Except String (Nat × CMState) :=
  match env.addFails layerId spec with
  | some msg => Except.error msg
  | none => Except.ok (cm.nextId,
      { nextId := cm.nextId + 1, catalog := cm.catalog ++ [(cm.nextId, (layerId, spec))] })

/-- Modelled from the spec: `ComponentManager.removeComponent(componentId)`. -/
def removeComponent (cm : CMState) (cid : Nat) : CMState :=
  { cm with catalog := eraseN cm.catalog cid }

/-- Modelled from the spec: the ids of `getComponentsByLayer(layerId)`. -/
def componentIdsByLayer (cm : CMState) (layerId : Nat) : List Nat :=
  (cm.catalog.filter (fun e => e.2.1 == layerId)).map (·.1)

/-- Modelled from the spec: the ids of `getBasicComponentsByLayer(layerId)` —
every catalog entry was added from a layer-name specification, i.e. is basic. -/
def basicComponentIdsByLayer (cm : CMState) (layerId : Nat) : List Nat :=
  componentIdsByLayer cm layerId

/-- The observable calls assetmanager.js makes on its collaborators, plus the
two signals it emits. (The `logger.debug` trace line is omitted.) -/
inductive Act where
  | updateBasePath (docId : Nat)
  | removeAllErrors
  | removeErrors (layerId : Nat)
  | addError (layerId : Nat) (msg : String)
  | reportErrors
  | cancelAllRenders (docId : Nat)
  | cancelRender (componentId : Nat)
  | cancelAllFiles
  | removeFileWithin (path : String)
  | moveFileInto (tmpPath : String) (assetPath : String)
  | renderStart (componentId : Nat)
  | emitActive (docId : Nat)
  | emitIdle (docId : Nat)
  | warnRenderFailure (componentName : String) (layerId : Nat) (err : String)
  | logRenderCanceled (componentName : String) (layerId : Nat)
deriving DecidableEq, Repr

/-- Phase of a render promise: `pending` (in flight), `cancelled`
(`RenderManager.cancel` was called — modelled from the spec, the promise is
rejected with no error, so `inspect().state` is no longer `"pending"`, and the
completion handlers run at a later settlement event), or `settled` (the
completion handlers have run). -/
inductive JobPhase where
  | pending
  | cancelled
  | settled
deriving DecidableEq, Repr

/-- A render job: the component captured by the completion-handler closures in
`_requestRender`, and its phase. -/
structure Job where
  component : Component
  phase : JobPhase
deriving DecidableEq, Repr

/-- Terminal outcome of a render promise as seen by the handlers in
`_requestRender`: resolution with a temporary path (a falsy path — absent or
empty — means nothing to place), or rejection with an error (a rejection with
no error is a cancellation). -/
inductive Outcome where
  | resolved (tmpPath : Option String)
  | rejected (err : Option String)
deriving DecidableEq, Repr

/-- The AssetManager's mutable state: the in-flight render-promise table
`_renderPromises` (component id → job id), the render jobs the RenderManager
has produced, a fresh-job-id counter, the Component Catalog, and whether
`_componentManager` and `_fileManager.basePath` have been established (the
guard of `_cleanup`). -/
structure AMState where
  renderPromises : List (Nat × Nat)
  jobs : List (Nat × Job)
  nextJobId : Nat
  cm : CMState
  cmInitialized : Bool
  basePathSet : Bool
deriving DecidableEq, Repr

/-- The state of an AssetManager that has never been started. -/
def initialAMState : AMState :=
  { renderPromises := [], jobs := [], nextJobId := 0,
    cm := { nextId := 0, catalog := [] }, cmInitialized := false, basePathSet := false }

/-- The document: its id, its `saved` flag, and its layers in traversal order
(`document.layers.visit`). -/
structure Document where
  id : Nat
  saved : Bool
  layers : List Layer

/-! ### A combinator for the source's `forEach`/`reduce` loops that thread
state and emit collaborator calls. -/

/-- Run `f` over `xs` from state `s` (one iteration of the loop body per list
element, in order), concatenating the emitted actions. -/
def runList {σ α : Type} (f : σ → α → σ × List Act) : σ → List α → σ × List Act
  | s, [] => (s, [])
  | s, x :: xs =>
      ((runList f (f s x).1 xs).1, (f s x).2 ++ (runList f (f s x).1 xs).2)

/-! ### AssetManager operations (assetmanager.js) -/

/-- Translation of `_hasPendingRender` (lines 252-262): the table has an own
property for the component id and the stored promise's `inspect().state` is
`"pending"`. -/
def hasPendingRender (st : AMState) (componentId : Nat) : Bool :=
  match lookupN st.renderPromises componentId with
  | some jid =>
      match lookupN st.jobs jid with
      | some job => job.phase == JobPhase.pending
      | none => false
  | none => false

/-- Set the phase of job `jid`. -/
def setPhase (jobs : List (Nat × Job)) (jid : Nat) (ph : JobPhase) : List (Nat × Job) :=
  jobs.map (fun q => (q.1, if q.1 == jid then { q.2 with phase := ph } else q.2))

/-- Modelled from the spec: `RenderManager.cancelAll(documentId)` cancels every
outstanding render of this (single) document: every pending promise is
rejected without an error. -/
def cancelAllJobs (jobs : List (Nat × Job)) : List (Nat × Job) :=
  jobs.map (fun q => if q.2.phase == JobPhase.pending
    then (q.1, { q.2 with phase := JobPhase.cancelled }) else q)

/-- Translation of `_requestRender` (lines 209-243), synchronous part:
`renderManager.render(component)` produces a fresh pending promise; if the
table was empty before the insertion, `"active"` is emitted; the promise is
recorded under `component.id` (overwriting any existing entry). The
completion handlers registered on the promise are `settleJob` below. -/
def requestRender (docId : Nat) (st : AMState) (c : Component) : AMState × List Act :=
  let jid := st.nextJobId
  let st' := { st with jobs := st.jobs ++ [(jid, Job.mk c JobPhase.pending)], nextJobId := jid + 1 }
  let a2 : List Act := if st'.renderPromises.isEmpty then [Act.emitActive docId] else []
  ({ st' with renderPromises := insertN st'.renderPromises c.id jid },
    Act.renderStart c.id :: a2)

/-- Translation of the completion handlers of `_requestRender` (lines 220-242),
run when the promise of job `jid` settles with outcome `oc`:
`.then`: a truthy temporary path is handed to `fileManager.moveFileInto`;
`.fail`: a truthy error is logged as a warning, otherwise the cancellation is
logged; `.finally`: `delete this._renderPromises[component.id]`, and if the
table is then empty, `"idle"` is emitted. A promise settles only once
(`settled` jobs are final). -/
def settleJob (docId : Nat) (st : AMState) (jid : Nat) (oc : Outcome) : AMState × List Act :=
  match lookupN st.jobs jid with
  | none => (st, [])
  | some job =>
      match job.phase with
      | JobPhase.settled => (st, [])
      | _ =>
          let c := job.component
          let a1 : List Act :=
            match oc with
            | Outcome.resolved none => []
            | Outcome.resolved (some t) =>
                if t == "" then [] else [Act.moveFileInto t c.assetPath]
            | Outcome.rejected (some e) => [Act.warnRenderFailure c.name c.layerId e]
            | Outcome.rejected none => [Act.logRenderCanceled c.name c.layerId]
          let rp := eraseN st.renderPromises c.id
          let a2 : List Act := if rp.isEmpty then [Act.emitIdle docId] else []
          ({ st with renderPromises := rp, jobs := setPhase st.jobs jid JobPhase.settled },
            a1 ++ a2)

/-- One iteration of the `forEach` in `_cleanupDerivedComponents` (lines
104-110): if the derived component has a pending render, cancel it via the
RenderManager (modelled from the spec: the cancelled promise is rejected, so
it is no longer `"pending"`); unconditionally ask the FileManager to remove
the files within its asset path. -/
def cleanupDerivedStep (st : AMState) (d : Component) : AMState × List Act :=
  let r : AMState × List Act :=
    if hasPendingRender st d.id then
      (match lookupN st.renderPromises d.id with
       | some jid => { st with jobs := setPhase st.jobs jid JobPhase.cancelled }
       | none => st,
       [Act.cancelRender d.id])
    else (st, [])
  (r.1, r.2 ++ [Act.removeFileWithin d.assetPath])

/-- Translation of `_cleanupDerivedComponents` (lines 103-111). -/
def cleanupDerivedComponents (env : Env) (st : AMState) (componentId : Nat) :
    AMState × List Act :=
  runList cleanupDerivedStep st (env.derived componentId)

/-- One layer of the `visit` in `_cleanup` (lines 122-131): skip layers without
a group, otherwise run derived-component cleanup on every catalog component of
the layer. -/
def cleanupLayerStep (env : Env) (st : AMState) (layer : Layer) : AMState × List Act :=
  if layer.group.isNone then (st, [])
  else runList (fun st cid => cleanupDerivedComponents env st cid) st
    (componentIdsByLayer st.cm layer.id)

/-- Translation of `_cleanup` (lines 118-133): only if a component manager and
a base path exist. -/
def cleanup (env : Env) (doc : Document) (st : AMState) : AMState × List Act :=
  if st.cmInitialized && st.basePathSet then
    runList (cleanupLayerStep env) st doc.layers
  else (st, [])

/-- One layer of the parse traversal in `_init` (lines 150-177): skip the
top-level layer group; for each parse result, a component is added to the
catalog (an exception becoming a diagnostic), otherwise its errors become
diagnostics; the layer id is recorded if some component was added. The loop
state is the AssetManager state paired with `layerIdsWithComponents`. -/
def parseLayerStep (env : Env) (s : AMState × List Nat) (layer : Layer) :
    (AMState × List Nat) × List Act :=
  if layer.group.isNone then (s, [])
  else
    let r := runList (fun (t : AMState × Bool) (res : SpecResult) =>
        match res.component with
        | some spec =>
            match addComponent env t.1.cm layer.id spec with
            | Except.ok q => (({ t.1 with cm := q.2 }, true), [])
            | Except.error msg => (t, [Act.addError layer.id msg])
        | none => (t, res.errors.map (Act.addError layer.id)))
      (s.1, false) (env.findAllComponents layer)
    ((r.1.1, if r.1.2 then s.2 ++ [layer.id] else s.2), r.2)

/-- One layer of the render loop at the end of `_init` (lines 181-189): for
every basic component of the layer, request a render of each of its derived
components. -/
def renderLayerStep (env : Env) (docId : Nat) (st : AMState) (layerId : Nat) :
    AMState × List Act :=
  runList (fun st bcid =>
      runList (fun st d => requestRender docId st d) st (env.derived bcid))
    st (basicComponentIdsByLayer st.cm layerId)

/-- Translation of `_init` (lines 142-190): reset the promise table and the
component manager, update the base path, clear all diagnostics, cancel all
outstanding renders for the document, parse every grouped layer, report the
collected diagnostics once, then request renders for the derived components
of every layer that yielded a valid component. -/
def init (env : Env) (doc : Document) (st : AMState) : AMState × List Act :=
  let st0 := { st with renderPromises := ([] : List (Nat × Nat)),
                       cm := CMState.mk st.cm.nextId [],
                       cmInitialized := true, basePathSet := true,
                       jobs := cancelAllJobs st.jobs }
  let r1 := runList (parseLayerStep env) (st0, ([] : List Nat)) doc.layers
  let r2 := runList (renderLayerStep env doc.id) r1.1.1 r1.1.2
  (r2.1,
    [Act.updateBasePath doc.id, Act.removeAllErrors, Act.cancelAllRenders doc.id]
      ++ r1.2 ++ [Act.reportErrors] ++ r2.2)

/-- Translation of `_reset` (lines 198-201): cleanup, then init. -/
def reset (env : Env) (doc : Document) (st : AMState) : AMState × List Act :=
  let r1 := cleanup env doc st
  let r2 := init env doc r1.1
  (r2.1, r1.2 ++ r2.2)

/-! ### Incremental change handling (`_handleChange`, lines 291-423) -/

/-- A per-layer change record (`{type, layer}`). -/
inductive ChangeType where
  | added
  | removed
  | modified
deriving DecidableEq, Repr

/-- `change.layers[id]`. -/
structure LayerChange where
  type : ChangeType
  layer : Layer

/-- `change.file`: only `hasOwnProperty("previousSaved")` is inspected. -/
structure FileChange where
  hasPreviousSaved : Bool

/-- A change notification. `resolution` is the truthiness of
`change.resolution`; `layers` is the `change.layers` object as an association
list in key-enumeration order. -/
structure Change where
  file : Option FileChange
  resolution : Bool
  layers : Option (List (Nat × LayerChange))

/-- The `dependentLayers` map (lines 316-324): the union over all changed
layers of `getDependentLayers`, keyed by layer id (`dependentLayers[layer.id]
= layer`, later writes overwriting). -/
def dependentLayersOf (lcs : List (Nat × LayerChange)) : List (Nat × Layer) :=
  lcs.foldl (fun dl p =>
    (getDependentLayers p.2.layer).foldl (fun dl l => insertN dl l.id l) dl) []

/-- The valid specifications parsed from a layer:
`findAllComponents(layer)` filtered to the results carrying a component. -/
def validSpecs (env : Env) (layer : Layer) : List Spec :=
  (env.findAllComponents layer).filterMap (·.component)

/-- One layer of the `specificationsByLayer` reduce (lines 327-352): clear the
layer's diagnostics, parse it, record errors as diagnostics, and record its
valid specifications under `layer.id` when there is at least one. -/
def specPassStep (env : Env) (specs : List (Nat × List Spec)) (p : Nat × Layer) :
    List (Nat × List Spec) × List Act :=
  let layer := p.2
  let errActs := (env.findAllComponents layer).foldl (fun acc r =>
    match r.component with
    | some _ => acc
    | none => acc ++ r.errors.map (Act.addError layer.id)) []
  let vs := validSpecs env layer
  (if vs.isEmpty then specs else insertN specs layer.id vs,
    Act.removeErrors p.1 :: errActs)

/-- The `specificationsByLayer` reduce over the dependent layers. -/
def specPass (env : Env) (dl : List (Nat × Layer)) : List (Nat × List Spec) × List Act :=
  runList (specPassStep env) [] dl

/-- The `resetRequired` computation (lines 356-367): some layer with valid
specifications is an AdjustmentLayer, or some of its specifications has the
`default` flag. -/
def resetRequiredB (dl : List (Nat × Layer)) (specs : List (Nat × List Spec)) : Bool :=
  specs.any (fun p =>
    match lookupN dl p.1 with
    | some layer => layer.isAdjustment || p.2.any (·.hasDefault)
    | none => false)

/-- One removed layer of the removal pass (lines 388-397): clean up and remove
every catalog component of the layer, then clear its diagnostics. -/
def removeLayerStep (env : Env) (st : AMState) (layerId : Nat) : AMState × List Act :=
  let r := runList (fun st cid =>
      let r1 := cleanupDerivedComponents env st cid
      ({ r1.1 with cm := removeComponent r1.1.cm cid }, r1.2))
    st (componentIdsByLayer st.cm layerId)
  (r.1, r.2 ++ [Act.removeErrors layerId])

/-- The update pass over one layer's new specifications (lines 409-418): each
specification is added to the catalog and the renders of its derived
components are requested; an exception from `addComponent` becomes a
diagnostic against the layer, affecting only that specification. -/
def processSpecs (env : Env) (docId layerId : Nat) (st : AMState) (specs : List Spec) :
    AMState × List Act :=
  runList (fun st spec =>
      match addComponent env st.cm layerId spec with
      | Except.ok q =>
          runList (fun st d => requestRender docId st d) { st with cm := q.2 }
            (env.derived q.1)
      | Except.error msg => (st, [Act.addError layerId msg]))
    st specs

/-- One layer of the update pass (lines 399-419): clean up and remove every
previous catalog component of the layer, then process its new
specifications. -/
def updateLayerStep (env : Env) (docId : Nat) (st : AMState) (p : Nat × List Spec) :
    AMState × List Act :=
  let r1 := runList (fun st cid =>
      let r := cleanupDerivedComponents env st cid
      ({ r.1 with cm := removeComponent r.1.cm cid }, r.2))
    st (componentIdsByLayer st.cm p.1)
  let r2 := processSpecs env docId p.1 r1.1 p.2
  (r2.1, r1.2 ++ r2.2)

/-- The `change.layers` section of `_handleChange` (lines 310-422). -/
def handleLayersSection (env : Env) (doc : Document) (st : AMState)
    (lcs : List (Nat × LayerChange)) : AMState × List Act :=
  let dl := dependentLayersOf lcs
  let sp := specPass env dl
  if resetRequiredB dl sp.1 then
    let r := reset env doc st
    (r.1, sp.2 ++ r.2)
  else
    let removedLayerIds := (lcs.filter (fun p => p.2.type == ChangeType.removed)).map (·.1)
    let specs := sp.1.filter (fun p => !(removedLayerIds.contains p.1))
    let r2 := runList (removeLayerStep env) st removedLayerIds
    let r3 := runList (updateLayerStep env doc.id) r2.1 specs
    (r3.1, sp.2 ++ r2.2 ++ r3.2 ++ [Act.reportErrors])

/-- `_handleChange` after the `change.file` branch: the `change.resolution`
branch (lines 302-304 — note: no return), then the `change.layers` branch. -/
def handleChangeRest (env : Env) (doc : Document) (st : AMState) (ch : Change) :
    AMState × List Act :=
  let r1 := if ch.resolution then reset env doc st else (st, [])
  match ch.layers with
  | some lcs =>
      let r2 := handleLayersSection env doc r1.1 lcs
      (r2.1, r1.2 ++ r2.2)
  | none => r1

/-- Translation of `_handleChange` (lines 291-423). If `change.file` is
present: when the document is saved and the change has no `previousSaved`
property, return immediately; otherwise update the base path and continue. -/
def handleChange (env : Env) (doc : Document) (st : AMState) (ch : Change) :
    AMState × List Act :=
  match ch.file with
  | some fc =>
      if doc.saved && !fc.hasPreviousSaved then (st, [])
      else
        let r := handleChangeRest env doc { st with basePathSet := true } ch
        (r.1, Act.updateBasePath doc.id :: r.2)
  | none => handleChangeRest env doc st ch

/-! ### start / stop and the asynchronous event level -/

/-- Translation of `start` (lines 430-433): subscribe (modelled at the trace
level) and initialize. -/
def startAM (env : Env) (doc : Document) : AMState × List Act :=
  init env doc initialAMState

/-- Translation of `stop` (lines 440-444): unsubscribe from change events
(modelled at the trace level: after `stop` only settlement events occur),
cancel all outstanding renders for the document, and request cancellation of
all pending file operations. -/
def stop (docId : Nat) (st : AMState) : AMState × List Act :=
  ({ st with jobs := cancelAllJobs st.jobs },
    [Act.cancelAllRenders docId, Act.cancelAllFiles])

/-- An event at the render-request/settlement level: a render request for a
component, or the settlement of a render promise. -/
inductive Event where
  | request (c : Component)
  | settle (jid : Nat) (oc : Outcome)

/-- Run a sequence of request/settlement events. -/
def runEvents (docId : Nat) (st : AMState) (evs : List Event) : AMState × List Act :=
  runList (fun st ev =>
      match ev with
      | Event.request c => requestRender docId st c
      | Event.settle jid oc => settleJob docId st jid oc)
    st evs

/-- Run a sequence of settlement events only (the only events that can still
reach the instance after `stop`). -/
def runSettles (docId : Nat) (st : AMState) (ss : List (Nat × Outcome)) :
    AMState × List Act :=
  runList (fun st s => settleJob docId st s.1 s.2) st ss

/-- `stop` followed by the settlement of jobs that were in flight. -/
def stopThenSettles (docId : Nat) (st : AMState) (ss : List (Nat × Outcome)) :
    AMState × List Act :=
  let r1 := stop docId st
  let r2 := runSettles docId r1.1 ss
  (r2.1, r1.2 ++ r2.2)

/-! ### The ancestor walk over layer references (for termination analysis).
In the live document, `layer.group` is an object reference, so a malformed
graph can contain reference cycles; `getDependentLayersFuel` is the same
recursion as `getDependentLayers`, read over an arbitrary reference graph
(`parent`, `named`), with explicit fuel: `none` means the recursion did not
complete within the given fuel. -/

def getDependentLayersFuel (parent : Nat → Option Nat) (named : Nat → Bool) :
    Nat → Nat → Option (List Nat)
  | 0, _ => none
  | fuel + 1, l =>
      let deps := if named l then [l] else []
      match parent l with
      | some g => (getDependentLayersFuel parent named fuel g).map (fun ds => deps ++ ds)
      | none => some deps

/-- The walk from `l` terminates: some finite fuel suffices. -/
def walkTerminates (parent : Nat → Option Nat) (named : Nat → Bool) (l : Nat) : Prop :=
  ∃ fuel, (getDependentLayersFuel parent named fuel l).isSome

/-- The `group` chain from `l` reaches a root within `k` steps. -/
def rootedWithin (parent : Nat → Option Nat) : Nat → Nat → Bool
  | 0, l => (parent l).isNone
  | k + 1, l =>
      match parent l with
      | none => true
      | some g => rootedWithin parent k g

/-! ### Concrete instances used in counterexamples and witnesses -/

/-- Root layer group: no name, no enclosing group. -/
def layerD : Layer := Layer.mk 4 none false none

/-- An unnamed layer inside the root. -/
def layerC : Layer := Layer.mk 3 none false (some layerD)

/-- A named layer whose group is the unnamed `layerC`. -/
def layerB : Layer := Layer.mk 2 (some "b") false (some layerC)

/-- A named leaf layer: chain A (named) -> B (named) -> C (unnamed) -> D (root). -/
def layerA : Layer := Layer.mk 1 (some "a.png") false (some layerB)

/-- A free-standing named layer with id 7. -/
def layer7 : Layer := Layer.mk 7 (some "foo") false none

/-- An adjustment layer with id 9. -/
def adjLayer : Layer := Layer.mk 9 (some "adj") true none

def specFoo : Spec := { name := "foo", hasDefault := false }

def specDflt : Spec := { name := "dflt", hasDefault := true }

def compA : Component := { id := 1, name := "a", assetPath := "p", layerId := 7 }

def compB : Component := { id := 2, name := "b", assetPath := "q", layerId := 7 }

def comp40 : Component := { id := 40, name := "foo.png", assetPath := "out/foo.png", layerId := 7 }

/-- Environment: layer 7 parses to `specFoo`; the component added with id 0
derives `comp40`; adding never throws. -/
def envSimple : Env :=
  { findAllComponents := fun l =>
      if l.id == 7 then [{ component := some specFoo, errors := [] }] else [],
    addFails := fun _ _ => none,
    derived := fun cid => if cid == 0 then [comp40] else [] }

/-- A document with no content layers. -/
def docEmpty : Document := { id := 1, saved := false, layers := [] }

/-- A started AssetManager with empty table, catalog and no jobs. -/
def stReady : AMState :=
  { renderPromises := [], jobs := [], nextJobId := 0,
    cm := { nextId := 0, catalog := [] }, cmInitialized := true, basePathSet := true }

/-- A change carrying both a resolution change and a layers payload for
layer 7. -/
def chResLayers : Change :=
  { file := none, resolution := true,
    layers := some [(7, { type := ChangeType.modified, layer := layer7 })] }

/-- A state with one in-flight job: component 1 (`compA`) -> job 0, pending. -/
def stOneJob : AMState :=
  { renderPromises := [(1, 0)], jobs := [(0, Job.mk compA JobPhase.pending)], nextJobId := 1,
    cm := { nextId := 0, catalog := [] }, cmInitialized := true, basePathSet := true }

/-- A state with one in-flight job for component 2 (`compB`), leaving
component id 1 free. -/
def stOneJobB : AMState :=
  { renderPromises := [(2, 0)], jobs := [(0, Job.mk compB JobPhase.pending)], nextJobId := 1,
    cm := { nextId := 0, catalog := [] }, cmInitialized := true, basePathSet := true }

/-- A cyclic layer-reference graph: layer 0 is its own group. -/
def parSelfLoop : Nat → Option Nat := fun _ => some 0

/-- An acyclic layer-reference graph: 2 -> 1 -> root. -/
def parChain : Nat → Option Nat := fun l => if l == 2 then some 1 else none

/-- Trace for the C2 counterexample: two render requests for the same
component id without an intervening settlement or cancellation, then the
settlement of the first (superseded) job. -/
def traceC2 : List Event :=
  [Event.request compA, Event.request compA, Event.settle 0 (Outcome.rejected none)]

/-- Environment for the C10 witness: adding a "default"-flagged specification
to layer 7 throws with message "dup"; other adds succeed; the component with
id 0 derives `comp40`. -/
def envAddFail : Env :=
  { findAllComponents := fun _ => [],
    addFails := fun lid s => if lid == 7 && s.hasDefault then some "dup" else none,
    derived := fun cid => if cid == 0 then [comp40] else [] }

/-- A state with component 0 (layer 7, `specFoo`) in the catalog and its
derived component 40 being rendered by the pending job 0. -/
def stJob40 : AMState :=
  { renderPromises := [(40, 0)], jobs := [(0, Job.mk comp40 JobPhase.pending)], nextJobId := 1,
    cm := { nextId := 1, catalog := [(0, (7, specFoo))] },
    cmInitialized := true, basePathSet := true }

/-- Environment in which the adjustment layer 9 parses to one valid
specification. -/
def envAdj : Env :=
  { findAllComponents := fun l =>
      if l.id == 9 then [{ component := some specFoo, errors := [] }] else [],
    addFails := fun _ _ => none,
    derived := fun _ => [] }

/-- A layers payload touching only the adjustment layer 9. -/
def lcsAdj : List (Nat × LayerChange) :=
  [(9, { type := ChangeType.modified, layer := adjLayer })]

/-- The spec's reset-escalation condition stated directly over the dependency
closure (for comparison with the code's `resetRequired` computation): some
layer in the closure that yielded at least one valid specification is an
adjustment layer, or one of its specifications carries the "default" flag. -/
def escalationCondB (env : Env) (dl : List (Nat × Layer)) : Bool :=
  dl.any (fun p => !(validSpecs env p.2).isEmpty
    && (p.2.isAdjustment || (validSpecs env p.2).any (fun s => s.hasDefault)))

/-! ### Lemmas about the association-list primitives -/

theorem lookupN_nil {α : Type} (k : Nat) : lookupN ([] : List (Nat × α)) k = none := rfl

theorem lookupN_cons {α : Type} (p : Nat × α) (l : List (Nat × α)) (k : Nat) :
    lookupN (p :: l) k = if p.1 = k then some p.2 else lookupN l k := by
  by_cases h : p.1 = k <;> simp [lookupN, List.find?_cons, h]

theorem eraseN_cons {α : Type} (p : Nat × α) (l : List (Nat × α)) (k : Nat) :
    eraseN (p :: l) k = if p.1 = k then eraseN l k else p :: eraseN l k := by
  by_cases h : p.1 = k <;> simp [eraseN, List.filter_cons, h]

theorem keysNodup_def {α : Type} (l : List (Nat × α)) :
    keysNodup l ↔ (l.map Prod.fst).Nodup := Iff.rfl

theorem lookupN_eraseN_self {α : Type} (l : List (Nat × α)) (k : Nat) :
    lookupN (eraseN l k) k = none := by
  induction l with
  | nil => rfl
  | cons p l ih =>
      rw [eraseN_cons]
      by_cases h : p.1 = k
      · rw [if_pos h]; exact ih
      · rw [if_neg h, lookupN_cons, if_neg h]; exact ih

theorem lookupN_eraseN_ne {α : Type} (l : List (Nat × α)) (k k' : Nat) (h : k' ≠ k) :
    lookupN (eraseN l k) k' = lookupN l k' := by
  induction l with
  | nil => rfl
  | cons p l ih =>
      rw [eraseN_cons, lookupN_cons]
      by_cases hp : p.1 = k
      · rw [if_pos hp, ih, if_neg (by rw [hp]; exact fun hk => h hk.symm)]
      · rw [if_neg hp, lookupN_cons, ih]

theorem lookupN_append {α : Type} (l₁ l₂ : List (Nat × α)) (k : Nat) :
    lookupN (l₁ ++ l₂) k = ((lookupN l₁ k).or (lookupN l₂ k)) := by
  induction l₁ with
  | nil => simp [lookupN_nil, Option.or]
  | cons p l ih =>
      rw [List.cons_append, lookupN_cons, lookupN_cons]
      by_cases h : p.1 = k <;> simp [h, ih, Option.or]

theorem lookupN_insertN_self {α : Type} (l : List (Nat × α)) (k : Nat) (v : α) :
    lookupN (insertN l k v) k = some v := by
  rw [insertN, lookupN_append, lookupN_eraseN_self, lookupN_cons]
  simp

theorem lookupN_insertN_ne {α : Type} (l : List (Nat × α)) (k k' : Nat) (v : α) (h : k' ≠ k) :
    lookupN (insertN l k v) k' = lookupN l k' := by
  rw [insertN, lookupN_append, lookupN_eraseN_ne l k k' h]
  have hk : lookupN [(k, v)] k' = none := by
    rw [lookupN_cons, if_neg (fun hk => h hk.symm)]; rfl
  rw [hk]
  cases lookupN l k' <;> rfl

theorem keysNodup_nil {α : Type} : keysNodup ([] : List (Nat × α)) := by
  simp [keysNodup_def]

theorem keysNodup_eraseN {α : Type} (l : List (Nat × α)) (k : Nat) (h : keysNodup l) :
    keysNodup (eraseN l k) := by
  rw [keysNodup_def] at h ⊢
  have hsub : List.Sublist ((eraseN l k).map Prod.fst) (l.map Prod.fst) :=
    List.Sublist.map Prod.fst (List.filter_sublist l)
  exact h.sublist hsub

theorem not_mem_keys_eraseN {α : Type} (l : List (Nat × α)) (k : Nat) :
    k ∉ (eraseN l k).map Prod.fst := by
  intro hmem
  rcases List.mem_map.mp hmem with ⟨p, hp, hk⟩
  have hne := (List.mem_filter.mp hp).2
  simp only [bne_iff_ne, ne_eq] at hne
  exact hne hk

theorem keysNodup_insertN {α : Type} (l : List (Nat × α)) (k : Nat) (v : α) (h : keysNodup l) :
    keysNodup (insertN l k v) := by
  rw [keysNodup_def, insertN, List.map_append, List.nodup_append]
  refine ⟨(keysNodup_eraseN l k h : keysNodup (eraseN l k)), ?_, ?_⟩
  · simp
  · intro a ha hb
    simp only [List.map_cons, List.map_nil, List.mem_singleton] at hb
    rw [hb] at ha
    exact not_mem_keys_eraseN l k ha

theorem eraseN_of_not_mem_keys {α : Type} (l : List (Nat × α)) (k : Nat)
    (h : k ∉ l.map Prod.fst) : eraseN l k = l := by
  induction l with
  | nil => rfl
  | cons p l ih =>
      simp only [List.map_cons, List.mem_cons, not_or] at h
      rw [eraseN_cons, if_neg (fun hk => h.1 hk.symm), ih h.2]

theorem lookupN_isSome_of_mem_keys {α : Type} (l : List (Nat × α)) (k : Nat)
    (h : k ∈ l.map Prod.fst) : (lookupN l k).isSome := by
  induction l with
  | nil => simp at h
  | cons p l ih =>
      rw [lookupN_cons]
      by_cases hp : p.1 = k
      · simp [hp]
      · simp only [List.map_cons, List.mem_cons] at h
        rcases h with h | h
        · exact absurd h.symm hp
        · simpa [hp] using ih h

theorem mem_keys_of_lookupN_isSome {α : Type} (l : List (Nat × α)) (k : Nat)
    (h : (lookupN l k).isSome) : k ∈ l.map Prod.fst := by
  induction l with
  | nil => simp [lookupN_nil] at h
  | cons p l ih =>
      rw [lookupN_cons] at h
      by_cases hp : p.1 = k
      · simp [← hp]
      · rw [if_neg hp] at h
        simp only [List.map_cons, List.mem_cons]
        exact Or.inr (ih h)

theorem length_eraseN_of_lookupN_some {α : Type} (l : List (Nat × α)) (k : Nat) (v : α)
    (hnd : keysNodup l) (h : lookupN l k = some v) :
    (eraseN l k).length + 1 = l.length := by
  induction l with
  | nil => simp [lookupN_nil] at h
  | cons p l ih =>
      rw [lookupN_cons] at h
      rw [eraseN_cons]
      rw [keysNodup_def, List.map_cons, List.nodup_cons] at hnd
      by_cases hp : p.1 = k
      · rw [if_pos hp]
        have hk : k ∉ l.map Prod.fst := hp ▸ hnd.1
        rw [eraseN_of_not_mem_keys l k hk]
        simp
      · rw [if_neg hp]
        rw [if_neg hp] at h
        have := ih hnd.2 h
        simp only [List.length_cons]
        omega

theorem lookupN_eq_of_mem {α : Type} (l : List (Nat × α)) (k : Nat) (v : α)
    (hnd : keysNodup l) (h : (k, v) ∈ l) : lookupN l k = some v := by
  induction l with
  | nil => simp at h
  | cons p l ih =>
      rw [keysNodup_def, List.map_cons, List.nodup_cons] at hnd
      rw [lookupN_cons]
      rcases List.mem_cons.mp h with h | h
      · subst h; simp
      · by_cases hp : p.1 = k
        · exact absurd (hp ▸ List.mem_map.mpr ⟨(k, v), h, rfl⟩) hnd.1
        · rw [if_neg hp]
          exact ih hnd.2 h

theorem mem_of_lookupN_eq {α : Type} (l : List (Nat × α)) (k : Nat) (v : α)
    (h : lookupN l k = some v) : (k, v) ∈ l := by
  induction l with
  | nil => simp [lookupN_nil] at h
  | cons p l ih =>
      rw [lookupN_cons] at h
      by_cases hp : p.1 = k
      · rw [if_pos hp] at h
        obtain ⟨a, b⟩ := p
        dsimp only at hp h
        subst hp
        injection h with h2
        subst h2
        exact List.mem_cons_self _ _
      · rw [if_neg hp] at h
        exact List.mem_cons_of_mem _ (ih h)

/-! ### Lemmas about `runList` -/

theorem runList_nil {σ α : Type} (f : σ → α → σ × List Act) (s : σ) :
    runList f s [] = (s, []) := rfl

theorem runList_cons {σ α : Type} (f : σ → α → σ × List Act) (s : σ) (x : α) (xs : List α) :
    runList f s (x :: xs) =
      ((runList f (f s x).1 xs).1, (f s x).2 ++ (runList f (f s x).1 xs).2) := rfl

theorem runList_append {σ α : Type} (f : σ → α → σ × List Act) (s : σ) (xs ys : List α) :
    runList f s (xs ++ ys) =
      ((runList f (runList f s xs).1 ys).1,
        (runList f s xs).2 ++ (runList f (runList f s xs).1 ys).2) := by
  induction xs generalizing s with
  | nil => simp [runList_nil]
  | cons x xs ih =>
      rw [List.cons_append, runList_cons, runList_cons, ih]
      simp

theorem runList_inv {σ α : Type} (f : σ → α → σ × List Act) (P : σ → Prop)
    (hf : ∀ s x, P s → P (f s x).1) :
    ∀ (xs : List α) (s : σ), P s → P (runList f s xs).1 := by
  intro xs
  induction xs with
  | nil => intro s hs; simpa [runList_nil] using hs
  | cons x xs ih =>
      intro s hs
      rw [runList_cons]
      exact ih (f s x).1 (hf s x hs)

theorem runList_actions {σ α : Type} (f : σ → α → σ × List Act) (P : Act → Prop)
    (hf : ∀ s x a, a ∈ (f s x).2 → P a) :
    ∀ (xs : List α) (s : σ) (a : Act), a ∈ (runList f s xs).2 → P a := by
  intro xs
  induction xs with
  | nil => intro s a ha; simp [runList_nil] at ha
  | cons x xs ih =>
      intro s a ha
      rw [runList_cons] at ha
      rcases List.mem_append.mp ha with h | h
      · exact hf s x a h
      · exact ih (f s x).1 a h

/-! ### More association-list lemmas -/

theorem mem_of_mem_eraseN {α : Type} (l : List (Nat × α)) (k : Nat) (x : Nat × α)
    (h : x ∈ eraseN l k) : x ∈ l :=
  (List.mem_filter.mp h).1

theorem mem_insertN {α : Type} (l : List (Nat × α)) (k : Nat) (v : α) (x : Nat × α)
    (h : x ∈ insertN l k v) : x ∈ l ∨ x = (k, v) := by
  rcases List.mem_append.mp h with h | h
  · exact Or.inl (mem_of_mem_eraseN l k x h)
  · right
    simpa using h

/-! ### C4: dependency closure membership and deduplicated union -/

theorem mem_getDependentLayers : ∀ (l x : Layer),
    x ∈ getDependentLayers l ↔ (x ∈ selfAndAncestors l ∧ nameTruthy x = true)
  | .mk i n a none, x => by
      have hunf : getDependentLayers (Layer.mk i n a none)
          = (if nameTruthy (Layer.mk i n a none) then [Layer.mk i n a none] else []) := rfl
      have hchain : selfAndAncestors (Layer.mk i n a none) = [Layer.mk i n a none] := rfl
      rw [hunf, hchain]
      by_cases h : nameTruthy (Layer.mk i n a none) = true
      · rw [if_pos h]
        constructor
        · intro hx
          rcases List.mem_singleton.mp hx with rfl
          exact ⟨List.mem_singleton.mpr rfl, h⟩
        · rintro ⟨hx, _⟩
          exact hx
      · rw [if_neg h]
        constructor
        · intro hx
          exact absurd hx (List.not_mem_nil x)
        · rintro ⟨hx, ht⟩
          rcases List.mem_singleton.mp hx with rfl
          exact absurd ht h
  | .mk i n a (some g), x => by
      have ih := mem_getDependentLayers g x
      have hunf : getDependentLayers (Layer.mk i n a (some g))
          = (if nameTruthy (Layer.mk i n a (some g)) then [Layer.mk i n a (some g)] else [])
            ++ getDependentLayers g := rfl
      have hchain : selfAndAncestors (Layer.mk i n a (some g))
          = Layer.mk i n a (some g) :: selfAndAncestors g := rfl
      rw [hunf, hchain]
      by_cases h : nameTruthy (Layer.mk i n a (some g)) = true
      · rw [if_pos h]
        constructor
        · intro hx
          rcases List.mem_append.mp hx with hx | hx
          · rcases List.mem_singleton.mp hx with rfl
            exact ⟨List.mem_cons_self _ _, h⟩
          · rcases ih.mp hx with ⟨hm, ht⟩
            exact ⟨List.mem_cons_of_mem _ hm, ht⟩
        · rintro ⟨hx, ht⟩
          rcases List.mem_cons.mp hx with rfl | hm
          · exact List.mem_append.mpr (Or.inl (List.mem_singleton.mpr rfl))
          · exact List.mem_append.mpr (Or.inr (ih.mpr ⟨hm, ht⟩))
      · rw [if_neg h, List.nil_append]
        constructor
        · intro hx
          rcases ih.mp hx with ⟨hm, ht⟩
          exact ⟨List.mem_cons_of_mem _ hm, ht⟩
        · rintro ⟨hx, ht⟩
          rcases List.mem_cons.mp hx with rfl | hm
          · exact absurd ht h
          · exact ih.mpr ⟨hm, ht⟩

theorem keysNodup_foldl_insert_layers (ls : List Layer) :
    ∀ dl : List (Nat × Layer), keysNodup dl →
      keysNodup (ls.foldl (fun dl l => insertN dl l.id l) dl) := by
  induction ls with
  | nil => intro dl h; exact h
  | cons l ls ih =>
      intro dl h
      rw [List.foldl_cons]
      exact ih _ (keysNodup_insertN _ _ _ h)

theorem keysNodup_dependentLayersOf_aux (lcs : List (Nat × LayerChange)) :
    ∀ dl : List (Nat × Layer), keysNodup dl →
      keysNodup (lcs.foldl (fun dl p =>
        (getDependentLayers p.2.layer).foldl (fun dl l => insertN dl l.id l) dl) dl) := by
  induction lcs with
  | nil => intro dl h; exact h
  | cons p lcs ih =>
      intro dl h
      rw [List.foldl_cons]
      exact ih _ (keysNodup_foldl_insert_layers _ _ h)

theorem keyed_foldl_insert_layers (ls : List Layer) :
    ∀ dl : List (Nat × Layer), (∀ p ∈ dl, Layer.id p.2 = p.1) →
      ∀ p ∈ ls.foldl (fun dl l => insertN dl l.id l) dl, Layer.id p.2 = p.1 := by
  induction ls with
  | nil => intro dl h; exact h
  | cons l ls ih =>
      intro dl h
      rw [List.foldl_cons]
      refine ih _ ?_
      intro p hp
      rcases mem_insertN _ _ _ _ hp with hp | hp
      · exact h p hp
      · subst hp; rfl

theorem keyed_dependentLayersOf_aux (lcs : List (Nat × LayerChange)) :
    ∀ dl : List (Nat × Layer), (∀ p ∈ dl, Layer.id p.2 = p.1) →
      ∀ p ∈ lcs.foldl (fun dl p =>
        (getDependentLayers p.2.layer).foldl (fun dl l => insertN dl l.id l) dl) dl,
        Layer.id p.2 = p.1 := by
  induction lcs with
  | nil => intro dl h; exact h
  | cons q lcs ih =>
      intro dl h
      rw [List.foldl_cons]
      exact ih _ (keyed_foldl_insert_layers _ _ h)

/-- C4: for every changed layer, the dependency closure computed by
`getDependentLayers` is exactly the set of (JavaScript-truthy-)named layers
among the changed layer and its chain of `group` ancestors — the layer itself
is included iff it has a (non-empty) name, an unnamed layer of the chain is
never included, named ancestors above an unnamed layer are still included —
and the closures of the changed layers are unioned by `dependentLayersOf`
into a mapping keyed by layer id with no duplicate keys. -/
theorem c4_dependency_closure :
    (∀ l x : Layer,
        x ∈ getDependentLayers l ↔ (x ∈ selfAndAncestors l ∧ nameTruthy x = true))
    ∧ (∀ lcs : List (Nat × LayerChange),
        keysNodup (dependentLayersOf lcs)
          ∧ ∀ p ∈ dependentLayersOf lcs, Layer.id p.2 = p.1) := by
  refine ⟨mem_getDependentLayers, fun lcs => ⟨?_, ?_⟩⟩
  · exact keysNodup_dependentLayersOf_aux lcs [] keysNodup_nil
  · exact keyed_dependentLayersOf_aux lcs [] (by intro p hp; simp at hp)

/-- C4 witness, on the chain `layerA` (named) -> `layerB` (named) ->
`layerC` (unnamed) -> `layerD` (root): A and B are in A's closure, C is not. -/
theorem c4_dependency_closure_witness :
    layerA ∈ getDependentLayers layerA
      ∧ layerB ∈ getDependentLayers layerA
      ∧ layerC ∉ getDependentLayers layerA := by
  refine ⟨(c4_dependency_closure.1 layerA layerA).mpr ⟨?_, rfl⟩,
    (c4_dependency_closure.1 layerA layerB).mpr ⟨?_, rfl⟩, fun hmem => ?_⟩
  · simp [selfAndAncestors, layerA, layerB, layerC, layerD]
  · simp [selfAndAncestors, layerA, layerB, layerC, layerD]
  · have h := ((c4_dependency_closure.1 layerA layerC).mp hmem).2
    simp [nameTruthy, Layer.name, layerC] at h

/-! ### C9: termination of the ancestor walk -/

theorem fuel_none_on_self_loop :
    ∀ fuel, getDependentLayersFuel parSelfLoop (fun _ => true) fuel 0 = none := by
  intro fuel
  induction fuel with
  | zero => rfl
  | succ n ih =>
      have hstep : getDependentLayersFuel parSelfLoop (fun _ => true) (n + 1) 0
          = (getDependentLayersFuel parSelfLoop (fun _ => true) n 0).map
              (fun ds => [0] ++ ds) := rfl
      rw [hstep, ih]
      rfl

/-- C9 counterexample: the recursive ancestor walk has no visited-set guard,
and on a cyclic `group` reference chain (a layer that is its own group) it
does not terminate: no amount of fuel completes `getDependentLayersFuel` —
refuting the claim that the walk terminates on every input including cyclic
chains. -/
theorem c9_cycle_divergence_counterexample :
    ¬ walkTerminates parSelfLoop (fun _ => true) 0 := by
  rintro ⟨fuel, hsome⟩
  rw [fuel_none_on_self_loop fuel] at hsome
  simp at hsome

/-- C9 (amended): the walk is plain recursion without a visited set; it
terminates on every input whose `group` chain reaches a root (in particular
on the acyclic live document model), with fuel one more than the chain
length, but not on cyclic chains (see the counterexample). -/
theorem c9_walk_terminates_on_rooted_chains
    (parent : Nat → Option Nat) (named : Nat → Bool) (k l : Nat)
    (h : rootedWithin parent k l = true) :
    (getDependentLayersFuel parent named (k + 1) l).isSome = true
      ∧ walkTerminates parent named l := by
  have hmain : ∀ (k : Nat) (l : Nat), rootedWithin parent k l = true →
      (getDependentLayersFuel parent named (k + 1) l).isSome = true := by
    intro k
    induction k with
    | zero =>
        intro l h
        rw [rootedWithin] at h
        have hp : parent l = none := Option.isNone_iff_eq_none.mp h
        simp [getDependentLayersFuel, hp]
    | succ k ih =>
        intro l h
        rw [rootedWithin] at h
        cases hp : parent l with
        | none => simp [getDependentLayersFuel, hp]
        | some g =>
            rw [hp] at h
            have hg := ih g h
            simp [getDependentLayersFuel, hp, Option.isSome_map]
            exact hg
  exact ⟨hmain k l h, ⟨k + 1, hmain k l h⟩⟩

/-- C9 witness: the chain 2 -> 1 -> root is rooted within one step and the
walk over it completes with fuel 2. -/
theorem c9_walk_terminates_witness :
    rootedWithin parChain 1 2 = true
      ∧ (getDependentLayersFuel parChain (fun _ => true) 2 2).isSome = true := by
  refine ⟨rfl, (c9_walk_terminates_on_rooted_chains parChain (fun _ => true) 1 2 rfl).1⟩

/-! ### C6: the four settlement outcomes -/

theorem mem_ite_list {α : Type} (c : Bool) (l1 l2 : List α) (a : α) :
    a ∈ (if c = true then l1 else l2) ↔ ((c = true ∧ a ∈ l1) ∨ (c = false ∧ a ∈ l2)) := by
  cases c <;> simp

theorem settleJob_eq_main (docId : Nat) (st : AMState) (jid : Nat) (oc : Outcome) (job : Job)
    (hjob : lookupN st.jobs jid = some job) (hph : job.phase ≠ JobPhase.settled) :
    settleJob docId st jid oc =
      ({ st with renderPromises := eraseN st.renderPromises job.component.id,
                 jobs := setPhase st.jobs jid JobPhase.settled },
        (match oc with
          | Outcome.resolved none => []
          | Outcome.resolved (some t) =>
              if t == "" then [] else [Act.moveFileInto t job.component.assetPath]
          | Outcome.rejected (some e) =>
              [Act.warnRenderFailure job.component.name job.component.layerId e]
          | Outcome.rejected none =>
              [Act.logRenderCanceled job.component.name job.component.layerId])
        ++ (if (eraseN st.renderPromises job.component.id).isEmpty
              then [Act.emitIdle docId] else [])) := by
  obtain ⟨c, ph⟩ := job
  unfold settleJob
  rw [hjob]
  cases ph with
  | settled => exact absurd rfl hph
  | pending => rfl
  | cancelled => rfl

/-- C6: whichever of the four terminal outcomes a render job settles with
(success with a truthy temporary path, success with no path, failure with an
error, cancellation), the completion handlers remove the job's entry from the
in-flight table; the artifact is handed to the FileManager for movement into
the component's assetPath iff the outcome is success with a non-empty path; a
failure produces only a warning (never a Diagnostics-Sink `addError`); a
cancellation is logged without a warning. -/
theorem c6_settlement_outcomes (docId : Nat) (st : AMState) (jid : Nat) (oc : Outcome)
    (job : Job) (hjob : lookupN st.jobs jid = some job)
    (hph : job.phase ≠ JobPhase.settled) :
    lookupN (settleJob docId st jid oc).1.renderPromises job.component.id = none
    ∧ (∀ t : String,
        Act.moveFileInto t job.component.assetPath ∈ (settleJob docId st jid oc).2
          ↔ (oc = Outcome.resolved (some t) ∧ t ≠ ""))
    ∧ (∀ e : String,
        Act.warnRenderFailure job.component.name job.component.layerId e
            ∈ (settleJob docId st jid oc).2
          ↔ oc = Outcome.rejected (some e))
    ∧ (Act.logRenderCanceled job.component.name job.component.layerId
          ∈ (settleJob docId st jid oc).2
        ↔ oc = Outcome.rejected none)
    ∧ (∀ lid msg, Act.addError lid msg ∉ (settleJob docId st jid oc).2) := by
  rw [settleJob_eq_main docId st jid oc job hjob hph]
  rcases oc with tp | er
  · rcases tp with _ | t'
    · simp [mem_ite_list, lookupN_eraseN_self]
    · by_cases ht : t' = ""
      · subst ht
        simp [mem_ite_list, lookupN_eraseN_self]
      · simp [mem_ite_list, lookupN_eraseN_self, ht, beq_iff_eq]
        intro t
        constructor
        · rintro rfl
          exact ⟨rfl, ht⟩
        · rintro ⟨rfl, _⟩
          rfl
  · rcases er with _ | e'
    · simp [mem_ite_list, lookupN_eraseN_self]
    · simp [mem_ite_list, lookupN_eraseN_self]
      exact fun e => eq_comm

/-- C6 witness: job 0 for `compA` settles successfully with path `"tmp"`; the
entry is removed and the artifact is moved. -/
theorem c6_settlement_outcomes_witness :
    lookupN (settleJob 1 stOneJob 0 (Outcome.resolved (some "tmp"))).1.renderPromises compA.id
        = none
    ∧ (Act.moveFileInto "tmp" compA.assetPath
          ∈ (settleJob 1 stOneJob 0 (Outcome.resolved (some "tmp"))).2
        ↔ (Outcome.resolved (some "tmp") = Outcome.resolved (some ("tmp" : String))
            ∧ ("tmp" : String) ≠ "")) := by
  have h := c6_settlement_outcomes 1 stOneJob 0 (Outcome.resolved (some "tmp"))
    (Job.mk compA JobPhase.pending) rfl (by decide)
  exact ⟨h.1, h.2.1 "tmp"⟩

/-! ### C2 and C3: the in-flight table, "active"/"idle" edge-triggering -/

theorem isEmpty_true_iff {α : Type} (l : List α) : l.isEmpty = true ↔ l = [] := by
  cases l <;> simp

theorem requestRender_eq (docId : Nat) (st : AMState) (c : Component) :
    requestRender docId st c =
      ({ st with jobs := st.jobs ++ [(st.nextJobId, Job.mk c JobPhase.pending)],
                 nextJobId := st.nextJobId + 1,
                 renderPromises := insertN st.renderPromises c.id st.nextJobId },
        Act.renderStart c.id
          :: (if st.renderPromises.isEmpty then [Act.emitActive docId] else [])) := rfl

theorem mem_settleA1 (oc : Outcome) (c : Component) (a : Act)
    (h : a ∈ (match oc with
      | Outcome.resolved none => ([] : List Act)
      | Outcome.resolved (some t) =>
          if t == "" then [] else [Act.moveFileInto t c.assetPath]
      | Outcome.rejected (some e) => [Act.warnRenderFailure c.name c.layerId e]
      | Outcome.rejected none => [Act.logRenderCanceled c.name c.layerId])) :
    (∃ t, a = Act.moveFileInto t c.assetPath)
      ∨ (∃ e, a = Act.warnRenderFailure c.name c.layerId e)
      ∨ a = Act.logRenderCanceled c.name c.layerId := by
  rcases oc with tp | er
  · rcases tp with _ | t
    · dsimp only at h
      simp at h
    · dsimp only at h
      by_cases ht : (t == "") = true
      · rw [if_pos ht] at h
        simp at h
      · rw [if_neg ht] at h
        exact Or.inl ⟨t, List.mem_singleton.mp h⟩
  · rcases er with _ | e
    · dsimp only at h
      exact Or.inr (Or.inr (List.mem_singleton.mp h))
    · dsimp only at h
      exact Or.inr (Or.inl ⟨e, List.mem_singleton.mp h⟩)

/-- C2 counterexample: starting from an empty table, run
[request `compA`, request `compA`, settle job 0]. The second request for the
same component id overwrites the first entry without cancelling it; the
settlement of the superseded job 0 then empties the table and emits "idle" as
the final action, although job 1 is still in flight — refuting "idle is never
emitted while at least one render job remains in flight". -/
theorem c2_idle_while_job_in_flight_counterexample :
    (runEvents 1 stReady traceC2).2.getLast? = some (Act.emitIdle 1)
      ∧ lookupN (runEvents 1 stReady traceC2).1.jobs 1
          = some (Job.mk compA JobPhase.pending) := by
  constructor <;> rfl

/-- C2 (amended): provided every render request is for a component id with no
current table entry, and every settlement is of the job currently recorded in
the table for its component (both guaranteed in the integrated system, where
component ids are fresh), "active" is emitted on a render request exactly
when the in-flight table was empty and the request grows the table by one
(zero-to-non-zero transitions), and "idle" is emitted on a settlement exactly
when the table becomes empty, the settlement shrinking the table by one
(non-zero-to-zero transitions); a request never emits "idle" and a settlement
never emits "active". Without the proviso, the settlement of a superseded job
can empty the table while a job is still in flight (see the
counterexample). -/
theorem c2_active_idle_edge_triggered (docId : Nat) (st : AMState) (c : Component)
    (jid : Nat) (oc : Outcome) (job : Job) (hnd : keysNodup st.renderPromises) :
    (lookupN st.renderPromises c.id = none →
      ((Act.emitActive docId ∈ (requestRender docId st c).2 ↔ st.renderPromises = [])
        ∧ (requestRender docId st c).1.renderPromises.length = st.renderPromises.length + 1
        ∧ Act.emitIdle docId ∉ (requestRender docId st c).2))
    ∧ (lookupN st.jobs jid = some job → job.phase ≠ JobPhase.settled →
        lookupN st.renderPromises job.component.id = some jid →
      ((Act.emitIdle docId ∈ (settleJob docId st jid oc).2
          ↔ (settleJob docId st jid oc).1.renderPromises = [])
        ∧ (settleJob docId st jid oc).1.renderPromises.length + 1
            = st.renderPromises.length
        ∧ Act.emitActive docId ∉ (settleJob docId st jid oc).2)) := by
  constructor
  · intro hfree
    have hnotmem : c.id ∉ st.renderPromises.map Prod.fst := by
      intro hmem
      have h2 := lookupN_isSome_of_mem_keys _ _ hmem
      rw [hfree] at h2
      simp at h2
    rw [requestRender_eq]
    dsimp only
    rw [insertN, eraseN_of_not_mem_keys _ _ hnotmem]
    refine ⟨?_, ?_, ?_⟩
    · cases hE : st.renderPromises with
      | nil => simp
      | cons p l => simp
    · simp
    · cases hE : st.renderPromises with
      | nil => simp
      | cons p l => simp
  · intro hjob hph htab
    rw [settleJob_eq_main docId st jid oc job hjob hph]
    dsimp only
    refine ⟨?_, length_eraseN_of_lookupN_some _ _ _ hnd htab, ?_⟩
    · constructor
      · intro hm
        rcases List.mem_append.mp hm with hm | hm
        · rcases mem_settleA1 oc job.component _ hm with ⟨t, h⟩ | ⟨e, h⟩ | h <;> simp at h
        · rcases (mem_ite_list _ _ _ _).mp hm with ⟨hE, _⟩ | ⟨_, hmem⟩
          · exact (isEmpty_true_iff _).mp hE
          · simp at hmem
      · intro hnil
        refine List.mem_append.mpr (Or.inr ?_)
        rw [hnil]
        simp
    · intro hm
      rcases List.mem_append.mp hm with hm | hm
      · rcases mem_settleA1 oc job.component _ hm with ⟨t, h⟩ | ⟨e, h⟩ | h <;> simp at h
      · rcases (mem_ite_list _ _ _ _).mp hm with ⟨_, hmem⟩ | ⟨_, hmem⟩ <;> simp at hmem

/-- C2 witness: from the state with one in-flight job for component 2, a
request for component 1 and the settlement of job 0 (component 2). -/
theorem c2_active_idle_edge_triggered_witness :
    ((Act.emitActive 1 ∈ (requestRender 1 stOneJobB compA).2 ↔ stOneJobB.renderPromises = [])
      ∧ (requestRender 1 stOneJobB compA).1.renderPromises.length
          = stOneJobB.renderPromises.length + 1
      ∧ Act.emitIdle 1 ∉ (requestRender 1 stOneJobB compA).2)
    ∧ ((Act.emitIdle 1 ∈ (settleJob 1 stOneJobB 0 (Outcome.resolved none)).2
          ↔ (settleJob 1 stOneJobB 0 (Outcome.resolved none)).1.renderPromises = [])
      ∧ (settleJob 1 stOneJobB 0 (Outcome.resolved none)).1.renderPromises.length + 1
          = stOneJobB.renderPromises.length
      ∧ Act.emitActive 1 ∉ (settleJob 1 stOneJobB 0 (Outcome.resolved none)).2) := by
  have h := c2_active_idle_edge_triggered 1 stOneJobB compA 0 (Outcome.resolved none)
    (Job.mk compB JobPhase.pending) ((keysNodup_def _).mpr (by decide))
  exact ⟨h.1 rfl, h.2 rfl (by decide) rfl⟩

/-- C3 counterexample: with a pending job 0 for component id 1 already in the
table, a new render request for component id 1 issues no cancellation, leaves
job 0 pending (neither cancelled nor settled), and records the new job 1 by
overwriting the table entry — refuting "a new render request for a component
id that already has a table entry first ensures the prior entry is cancelled
or settled before the new job is recorded". -/
theorem c3_no_cancel_on_overwrite_counterexample :
    (Act.cancelRender 1 ∉ (requestRender 1 stOneJob compA).2)
      ∧ lookupN (requestRender 1 stOneJob compA).1.jobs 0
          = some (Job.mk compA JobPhase.pending)
      ∧ lookupN (requestRender 1 stOneJob compA).1.renderPromises 1 = some 1 := by
  refine ⟨?_, rfl, rfl⟩
  intro hm
  have : (requestRender 1 stOneJob compA).2 = [Act.renderStart 1] := rfl
  rw [this] at hm
  simp at hm

theorem requestRender_keysNodup (docId : Nat) (st : AMState) (c : Component)
    (h : keysNodup st.renderPromises) :
    keysNodup (requestRender docId st c).1.renderPromises := by
  rw [requestRender_eq]
  exact keysNodup_insertN _ _ _ h

theorem settleJob_keysNodup (docId : Nat) (st : AMState) (jid : Nat) (oc : Outcome)
    (h : keysNodup st.renderPromises) :
    keysNodup (settleJob docId st jid oc).1.renderPromises := by
  unfold settleJob
  cases hj : lookupN st.jobs jid with
  | none => exact h
  | some job =>
      obtain ⟨c, ph⟩ := job
      cases ph
      case settled => exact h
      case pending => exact keysNodup_eraseN _ _ h
      case cancelled => exact keysNodup_eraseN _ _ h

theorem cleanupDerivedStep_renderPromises (st : AMState) (d : Component) :
    (cleanupDerivedStep st d).1.renderPromises = st.renderPromises := by
  unfold cleanupDerivedStep
  by_cases hp : hasPendingRender st d.id = true
  · rw [if_pos hp]
    cases lookupN st.renderPromises d.id <;> rfl
  · rw [if_neg hp]

theorem cleanupDerivedComponents_renderPromises (env : Env) (st : AMState) (cid : Nat) :
    (cleanupDerivedComponents env st cid).1.renderPromises = st.renderPromises := by
  unfold cleanupDerivedComponents
  refine runList_inv _ (fun (s : AMState) => s.renderPromises = st.renderPromises) ?_ _ st rfl
  intro s d hs
  rw [cleanupDerivedStep_renderPromises]
  exact hs

theorem cleanupLayerStep_renderPromises (env : Env) (st0 : AMState) (s : AMState)
    (layer : Layer) (hs : s.renderPromises = st0.renderPromises) :
    (cleanupLayerStep env s layer).1.renderPromises = st0.renderPromises := by
  unfold cleanupLayerStep
  by_cases hgr : layer.group.isNone = true
  · rw [if_pos hgr]
    exact hs
  · rw [if_neg hgr]
    refine runList_inv _ (fun (s2 : AMState) => s2.renderPromises = st0.renderPromises) ?_ _ s hs
    intro s2 cid hs2
    rw [cleanupDerivedComponents_renderPromises]
    exact hs2

theorem cleanup_renderPromises (env : Env) (doc : Document) (st : AMState) :
    (cleanup env doc st).1.renderPromises = st.renderPromises := by
  unfold cleanup
  by_cases hg : (st.cmInitialized && st.basePathSet) = true
  · rw [if_pos hg]
    refine runList_inv _ (fun (s : AMState) => s.renderPromises = st.renderPromises) ?_ _ st rfl
    intro s layer hs
    exact cleanupLayerStep_renderPromises env st s layer hs
  · rw [if_neg hg]

theorem parseLayerStep_renderPromises (env : Env) (s : AMState × List Nat) (layer : Layer) :
    (parseLayerStep env s layer).1.1.renderPromises = s.1.renderPromises := by
  unfold parseLayerStep
  by_cases hgr : layer.group.isNone = true
  · rw [if_pos hgr]
  · rw [if_neg hgr]
    dsimp only
    refine runList_inv _
      (fun (t : AMState × Bool) => t.1.renderPromises = s.1.renderPromises) ?_ _ (s.1, false) rfl
    intro t res ht
    cases res.component with
    | none => exact ht
    | some spec =>
        dsimp only
        cases addComponent env t.1.cm layer.id spec with
        | ok q => exact ht
        | error msg => exact ht

theorem renderLayerStep_keysNodup (env : Env) (docId : Nat) (st : AMState) (lid : Nat)
    (h : keysNodup st.renderPromises) :
    keysNodup (renderLayerStep env docId st lid).1.renderPromises := by
  unfold renderLayerStep
  refine runList_inv _ (fun (s : AMState) => keysNodup s.renderPromises) ?_ _ st h
  intro s bcid hs
  refine runList_inv _ (fun (s2 : AMState) => keysNodup s2.renderPromises) ?_ _ s hs
  intro s2 d hs2
  exact requestRender_keysNodup docId s2 d hs2

theorem init_keysNodup (env : Env) (doc : Document) (st : AMState) :
    keysNodup (init env doc st).1.renderPromises := by
  unfold init
  dsimp only
  refine runList_inv _ (fun (s : AMState) => keysNodup s.renderPromises) ?_ _ _ ?_
  · intro s lid hs
    exact renderLayerStep_keysNodup env doc.id s lid hs
  · refine runList_inv _ (fun (t : AMState × List Nat) => keysNodup t.1.renderPromises) ?_ _ _
      keysNodup_nil
    intro t layer ht
    rw [parseLayerStep_renderPromises]
    exact ht

theorem reset_keysNodup (env : Env) (doc : Document) (st : AMState) :
    keysNodup (reset env doc st).1.renderPromises := by
  unfold reset
  exact init_keysNodup env doc _

theorem removeLayerStep_renderPromises (env : Env) (st : AMState) (lid : Nat) :
    (removeLayerStep env st lid).1.renderPromises = st.renderPromises := by
  unfold removeLayerStep
  dsimp only
  refine runList_inv _ (fun (s : AMState) => s.renderPromises = st.renderPromises) ?_ _ st rfl
  intro s cid hs
  dsimp only
  rw [cleanupDerivedComponents_renderPromises]
  exact hs

theorem processSpecs_keysNodup (env : Env) (docId lid : Nat) (st : AMState) (specs : List Spec)
    (h : keysNodup st.renderPromises) :
    keysNodup (processSpecs env docId lid st specs).1.renderPromises := by
  unfold processSpecs
  refine runList_inv _ (fun (s : AMState) => keysNodup s.renderPromises) ?_ _ st h
  intro s spec hs
  cases addComponent env s.cm lid spec with
  | ok q =>
      dsimp only
      refine runList_inv _ (fun (s2 : AMState) => keysNodup s2.renderPromises) ?_ _ _ hs
      intro s2 d hs2
      exact requestRender_keysNodup docId s2 d hs2
  | error msg => exact hs

theorem updateLayerStep_keysNodup (env : Env) (docId : Nat) (st : AMState)
    (p : Nat × List Spec) (h : keysNodup st.renderPromises) :
    keysNodup (updateLayerStep env docId st p).1.renderPromises := by
  unfold updateLayerStep
  dsimp only
  apply processSpecs_keysNodup
  refine runList_inv _ (fun (s : AMState) => keysNodup s.renderPromises) ?_ _ st h
  intro s cid hs
  dsimp only
  have heq : ((cleanupDerivedComponents env s cid).1).renderPromises = s.renderPromises :=
    cleanupDerivedComponents_renderPromises env s cid
  rw [heq]
  exact hs

theorem handleLayersSection_keysNodup (env : Env) (doc : Document) (st : AMState)
    (lcs : List (Nat × LayerChange)) (h : keysNodup st.renderPromises) :
    keysNodup (handleLayersSection env doc st lcs).1.renderPromises := by
  unfold handleLayersSection
  by_cases hr : resetRequiredB (dependentLayersOf lcs) (specPass env (dependentLayersOf lcs)).1
      = true
  · rw [if_pos hr]
    exact reset_keysNodup env doc st
  · rw [if_neg hr]
    dsimp only
    refine runList_inv _ (fun (s : AMState) => keysNodup s.renderPromises) ?_ _ _ ?_
    · intro s p hs
      exact updateLayerStep_keysNodup env doc.id s p hs
    · have heq : (runList (removeLayerStep env) st
          ((lcs.filter (fun p => p.2.type == ChangeType.removed)).map (·.1))).1.renderPromises
          = st.renderPromises := by
        refine runList_inv _ (fun (s : AMState) => s.renderPromises = st.renderPromises)
          ?_ _ st rfl
        intro s lid hs
        rw [removeLayerStep_renderPromises]
        exact hs
      show keysNodup _
      rw [keysNodup_def, heq]
      exact h

theorem handleChangeRest_keysNodup (env : Env) (doc : Document) (st : AMState) (ch : Change)
    (h : keysNodup st.renderPromises) :
    keysNodup ((handleChangeRest env doc st ch).1.renderPromises) := by
  unfold handleChangeRest
  have h1 : keysNodup (if ch.resolution then reset env doc st else (st, [])).1.renderPromises := by
    by_cases hres : ch.resolution = true
    · rw [if_pos hres]
      exact reset_keysNodup env doc st
    · rw [if_neg hres]
      exact h
  cases ch.layers with
  | some lcs => exact handleLayersSection_keysNodup env doc _ lcs h1
  | none => exact h1

theorem handleChange_keysNodup (env : Env) (doc : Document) (st : AMState) (ch : Change)
    (h : keysNodup st.renderPromises) :
    keysNodup ((handleChange env doc st ch).1.renderPromises) := by
  unfold handleChange
  cases hf : ch.file with
  | none => exact handleChangeRest_keysNodup env doc st ch h
  | some fc =>
      dsimp only
      by_cases hs : (doc.saved && !fc.hasPreviousSaved) = true
      · rw [if_pos hs]
        exact h
      · rw [if_neg hs]
        exact handleChangeRest_keysNodup env doc _ ch h

theorem runEvents_keysNodup (docId : Nat) (st : AMState) (evs : List Event)
    (h : keysNodup st.renderPromises) :
    keysNodup ((runEvents docId st evs).1.renderPromises) := by
  unfold runEvents
  refine runList_inv _ (fun (s : AMState) => keysNodup s.renderPromises) ?_ _ st h
  intro s ev hs
  cases ev with
  | request c => exact requestRender_keysNodup docId s c hs
  | settle jid oc => exact settleJob_keysNodup docId s jid oc hs

/-- C3 (amended): the in-flight table is keyed by component id and never holds
two entries for one id — the key set stays duplicate-free across every change
notification and every request/settlement sequence; but a new render request
for a component id that already has a table entry does not cancel or settle
the prior job first: it issues no cancellation, leaves the prior job's record
untouched, and simply overwrites the table entry with the fresh job id (the
integrated system avoids this case by using fresh component ids). -/
theorem c3_table_at_most_one_entry :
    (∀ (env : Env) (doc : Document) (st : AMState) (ch : Change),
        keysNodup st.renderPromises →
          keysNodup ((handleChange env doc st ch).1.renderPromises))
    ∧ (∀ (docId : Nat) (st : AMState) (evs : List Event),
        keysNodup st.renderPromises →
          keysNodup ((runEvents docId st evs).1.renderPromises))
    ∧ (∀ (docId : Nat) (st : AMState) (c : Component) (jid : Nat) (j : Job),
        lookupN st.renderPromises c.id = some jid → lookupN st.jobs jid = some j →
          (Act.cancelRender c.id ∉ (requestRender docId st c).2
            ∧ lookupN (requestRender docId st c).1.renderPromises c.id = some st.nextJobId
            ∧ lookupN (requestRender docId st c).1.jobs jid = some j)) := by
  refine ⟨handleChange_keysNodup, runEvents_keysNodup, ?_⟩
  intro docId st c jid j hprev hj
  rw [requestRender_eq]
  dsimp only
  refine ⟨?_, lookupN_insertN_self _ _ _, ?_⟩
  · intro hm
    rcases List.mem_cons.mp hm with hm | hm
    · simp at hm
    · rcases (mem_ite_list _ _ _ _).mp hm with ⟨_, hmem⟩ | ⟨_, hmem⟩ <;> simp at hmem
  · rw [lookupN_append, hj]
    rfl

/-- C3 witness: component 1 already has pending job 0 in the table (state
`stOneJob`); the new request for component 1 cancels nothing, keeps job 0's
record, and overwrites the entry with job 1. -/
theorem c3_table_at_most_one_entry_witness :
    Act.cancelRender compA.id ∉ (requestRender 1 stOneJob compA).2
      ∧ lookupN (requestRender 1 stOneJob compA).1.renderPromises compA.id
          = some stOneJob.nextJobId
      ∧ lookupN (requestRender 1 stOneJob compA).1.jobs 0
          = some (Job.mk compA JobPhase.pending) :=
  c3_table_at_most_one_entry.2.2 1 stOneJob compA 0 (Job.mk compA JobPhase.pending) rfl rfl

/-! ### C7: stop -/

theorem settleJob_no_active (docId : Nat) (s : AMState) (jid : Nat) (oc : Outcome)
    (d : Nat) (a : Act) (ha : a ∈ (settleJob docId s jid oc).2) : a ≠ Act.emitActive d := by
  cases hj : lookupN s.jobs jid with
  | none =>
      unfold settleJob at ha
      rw [hj] at ha
      simp at ha
  | some job =>
      by_cases hph : job.phase = JobPhase.settled
      · unfold settleJob at ha
        rw [hj] at ha
        obtain ⟨c, ph⟩ := job
        dsimp only at hph
        subst hph
        simp at ha
      · rw [settleJob_eq_main docId s jid oc job hj hph] at ha
        dsimp only at ha
        rcases List.mem_append.mp ha with hm | hm
        · rcases mem_settleA1 oc job.component a hm with ⟨t, rfl⟩ | ⟨e, rfl⟩ | rfl <;> simp
        · rcases (mem_ite_list _ _ _ _).mp hm with ⟨_, hmem⟩ | ⟨_, hmem⟩
          · rw [List.mem_singleton] at hmem
            subst hmem
            simp
          · simp at hmem

/-- C7 counterexample: with one render job in flight, `stop` is called and the
cancelled job then settles; the settlement handler still runs, empties the
table, and emits "idle" after `stop` — refuting "no further active or idle
signal is ever emitted by this instance". -/
theorem c7_idle_after_stop_counterexample :
    (stopThenSettles 1 stOneJob [(0, Outcome.rejected none)]).2
      = [Act.cancelAllRenders 1, Act.cancelAllFiles,
         Act.logRenderCanceled "a" 7, Act.emitIdle 1] := rfl

/-- C7 (amended): `stop` cancels all outstanding renders for the document
(every pending job leaves the pending phase) and requests cancellation of all
pending file operations, and no "active" signal is ever emitted afterwards
(stop requests no renders and change events are no longer delivered); however
the completion handlers of jobs that were in flight at `stop` still run when
those jobs settle, so a final "idle" can still be emitted (see the
counterexample). -/
theorem c7_stop_cancels_no_active (docId : Nat) (st : AMState) (ss : List (Nat × Outcome)) :
    (stop docId st).2 = [Act.cancelAllRenders docId, Act.cancelAllFiles]
    ∧ ((stop docId st).1.jobs.all (fun q => q.2.phase != JobPhase.pending)) = true
    ∧ (∀ (d : Nat) (a : Act), a ∈ (stopThenSettles docId st ss).2 → a ≠ Act.emitActive d) := by
  refine ⟨rfl, ?_, ?_⟩
  · rw [List.all_eq_true]
    intro q' hq'
    rcases List.mem_map.mp hq' with ⟨q, hq, rfl⟩
    by_cases hp : (q.2.phase == JobPhase.pending) = true
    · rw [if_pos hp]
      rfl
    · rw [if_neg hp]
      simp only [bne_iff_ne, ne_eq]
      intro hcontr
      exact hp (by rw [hcontr]; rfl)
  · intro d a ha
    unfold stopThenSettles runSettles at ha
    dsimp only at ha
    rcases List.mem_append.mp ha with hm | hm
    · rcases List.mem_cons.mp hm with rfl | hm
      · simp
      · rcases List.mem_singleton.mp hm with rfl
        simp
    · exact runList_actions _ (fun a => a ≠ Act.emitActive d)
        (fun s2 x a2 ha2 => settleJob_no_active docId s2 x.1 x.2 d a2 ha2) ss _ a hm

/-- C7 witness: `stop` on the one-job state emits exactly the two cancel-all
requests, and the action `cancelAllFiles` observed in the post-stop trace is
not an "active" emission. -/
theorem c7_stop_cancels_no_active_witness :
    (stop 1 stOneJob).2 = [Act.cancelAllRenders 1, Act.cancelAllFiles]
      ∧ Act.cancelAllFiles ≠ Act.emitActive 1 := by
  have h := c7_stop_cancels_no_active 1 stOneJob [(0, Outcome.rejected none)]
  exact ⟨h.1, h.2.2 1 Act.cancelAllFiles (by decide)⟩

/-! ### C1: a resolution change resets but does not stop processing -/

/-- C1 counterexample: a notification carrying both `resolution` and a
`layers` payload for layer 7, starting from a fresh started state. The trace
is the full-reset trace (`updateBasePath`, `removeAllErrors`,
`cancelAllRenders`, `reportErrors`) followed by the processing of the layers
payload (`removeErrors 7`, a render request for the derived component 40, the
"active" signal and a second diagnostics flush) — so the layers payload IS
processed after the reset, refuting "…and then stops". -/
theorem c1_layers_processed_after_reset_counterexample :
    (handleChange envSimple docEmpty stReady chResLayers).2
      = [Act.updateBasePath 1, Act.removeAllErrors, Act.cancelAllRenders 1, Act.reportErrors,
         Act.removeErrors 7, Act.renderStart 40, Act.emitActive 1, Act.reportErrors]
    ∧ (reset envSimple docEmpty stReady).2
      = [Act.updateBasePath 1, Act.removeAllErrors, Act.cancelAllRenders 1, Act.reportErrors] :=
  ⟨rfl, rfl⟩

/-- C1 (amended): for every change notification whose `resolution` field is
present (and which does not return early in the `file` branch), a full reset
is performed, but handling does not stop there: the notification's `layers`
payload, when present, is then processed against the freshly reset state. -/
theorem c1_resolution_reset_does_not_stop (env : Env) (doc : Document) (st : AMState)
    (ch : Change) (hres : ch.resolution = true) (hfile : ch.file = none) :
    handleChange env doc st ch =
      (let r1 := reset env doc st
       match ch.layers with
       | some lcs =>
           let r2 := handleLayersSection env doc r1.1 lcs
           (r2.1, r1.2 ++ r2.2)
       | none => r1) := by
  unfold handleChange
  rw [hfile]
  unfold handleChangeRest
  rw [hres]
  dsimp only
  cases ch.layers with
  | some lcs => simp
  | none => simp

/-- C1 witness: the amended statement at the concrete notification
`chResLayers`. -/
theorem c1_resolution_reset_does_not_stop_witness :
    handleChange envSimple docEmpty stReady chResLayers =
      (let r1 := reset envSimple docEmpty stReady
       match chResLayers.layers with
       | some lcs =>
           let r2 := handleLayersSection envSimple docEmpty r1.1 lcs
           (r2.1, r1.2 ++ r2.2)
       | none => r1) :=
  c1_resolution_reset_does_not_stop envSimple docEmpty stReady chResLayers rfl rfl

/-! ### C10: the update pass is not atomic per layer -/

theorem processSpecs_append (env : Env) (docId lid : Nat) (st : AMState) (xs ys : List Spec) :
    processSpecs env docId lid st (xs ++ ys) =
      ((processSpecs env docId lid (processSpecs env docId lid st xs).1 ys).1,
        (processSpecs env docId lid st xs).2
          ++ (processSpecs env docId lid (processSpecs env docId lid st xs).1 ys).2) := by
  unfold processSpecs
  exact runList_append _ st xs ys

theorem addComponent_error_of_addFails (env : Env) (cm : CMState) (lid : Nat) (spec : Spec)
    (msg : String) (h : env.addFails lid spec = some msg) :
    addComponent env cm lid spec = Except.error msg := by
  unfold addComponent
  rw [h]

theorem addComponent_ok_catalog (env : Env) (cm : CMState) (lid : Nat) (spec : Spec)
    (q : Nat × CMState) (h : addComponent env cm lid spec = Except.ok q) :
    q.2.catalog = cm.catalog ++ [(cm.nextId, (lid, spec))] := by
  unfold addComponent at h
  cases hf : env.addFails lid spec with
  | some msg =>
      rw [hf] at h
      exact absurd h (by simp)
  | none =>
      rw [hf] at h
      injection h with h
      rw [← h]

theorem processSpecs_cons_error (env : Env) (docId lid : Nat) (st : AMState) (bad : Spec)
    (ys : List Spec) (msg : String) (hbad : env.addFails lid bad = some msg) :
    processSpecs env docId lid st (bad :: ys) =
      ((processSpecs env docId lid st ys).1,
        Act.addError lid msg :: (processSpecs env docId lid st ys).2) := by
  unfold processSpecs
  rw [runList_cons]
  rw [addComponent_error_of_addFails env st.cm lid bad msg hbad]
  rfl

theorem runList_requestRender_cm (docId : Nat) (ds : List Component) :
    ∀ s : AMState, (runList (fun st d => requestRender docId st d) s ds).1.cm = s.cm := by
  induction ds with
  | nil => intro s; rfl
  | cons d ds ih =>
      intro s
      rw [runList_cons]
      dsimp only
      rw [ih]
      rfl

theorem processSpecs_catalog_extends (env : Env) (docId lid : Nat) (specs : List Spec) :
    ∀ st : AMState, ∃ tail, (processSpecs env docId lid st specs).1.cm.catalog
      = st.cm.catalog ++ tail := by
  induction specs with
  | nil =>
      intro st
      exact ⟨[], by simp [processSpecs, runList_nil]⟩
  | cons spec specs ih =>
      intro st
      unfold processSpecs
      rw [runList_cons]
      dsimp only
      cases hadd : addComponent env st.cm lid spec with
      | ok q =>
          have hcm : (runList (fun st d => requestRender docId st d)
              { st with cm := q.2 } (env.derived q.1)).1.cm = q.2 :=
            runList_requestRender_cm docId (env.derived q.1) _
          rcases ih (runList (fun st d => requestRender docId st d)
              { st with cm := q.2 } (env.derived q.1)).1 with ⟨tail, htail⟩
          refine ⟨[(st.cm.nextId, (lid, spec))] ++ tail, ?_⟩
          have h2 : (processSpecs env docId lid
              (runList (fun st d => requestRender docId st d)
                { st with cm := q.2 } (env.derived q.1)).1 specs).1.cm.catalog
              = q.2.catalog ++ tail := by
            rw [htail, hcm]
          unfold processSpecs at h2
          rw [h2, addComponent_ok_catalog env st.cm lid spec q hadd, List.append_assoc]
      | error msg =>
          rcases ih st with ⟨tail, htail⟩
          refine ⟨tail, ?_⟩
          unfold processSpecs at htail
          exact htail

/-- C10: the update pass of incremental change handling is not atomic per
layer: processing a specification list decomposes around a specification
whose `addComponent` throws — that specification contributes exactly one
diagnostic against the layer and nothing else, while the specifications
before it keep their catalog additions and requested renders and the
specifications after it are still attempted; moreover processing only ever
extends the catalog (earlier additions are never rolled back). -/
theorem c10_update_pass_not_atomic (env : Env) (docId lid : Nat) (st : AMState)
    (pre post : List Spec) (bad : Spec) (msg : String)
    (hbad : env.addFails lid bad = some msg) :
    processSpecs env docId lid st (pre ++ bad :: post) =
      ((processSpecs env docId lid (processSpecs env docId lid st pre).1 post).1,
        (processSpecs env docId lid st pre).2
          ++ Act.addError lid msg
            :: (processSpecs env docId lid (processSpecs env docId lid st pre).1 post).2)
    ∧ (∀ (st' : AMState) (specs : List Spec), ∃ tail,
        (processSpecs env docId lid st' specs).1.cm.catalog = st'.cm.catalog ++ tail) := by
  refine ⟨?_, fun st' specs => processSpecs_catalog_extends env docId lid specs st'⟩
  rw [processSpecs_append]
  rw [processSpecs_cons_error env docId lid _ bad post msg hbad]

/-- C10 witness: layer 7's new specification list is
[`specFoo`, `specDflt`, `specFoo`]; adding `specDflt` throws ("dup"), which
becomes the only diagnostic, while both `specFoo` occurrences are processed. -/
theorem c10_update_pass_not_atomic_witness :
    processSpecs envAddFail 1 7 stReady ([specFoo] ++ specDflt :: [specFoo]) =
      ((processSpecs envAddFail 1 7
          (processSpecs envAddFail 1 7 stReady [specFoo]).1 [specFoo]).1,
        (processSpecs envAddFail 1 7 stReady [specFoo]).2
          ++ Act.addError 7 "dup"
            :: (processSpecs envAddFail 1 7
                (processSpecs envAddFail 1 7 stReady [specFoo]).1 [specFoo]).2) :=
  (c10_update_pass_not_atomic envAddFail 1 7 stReady [specFoo] [specFoo] specDflt "dup" rfl).1

/-! ### C8: derived-component cleanup -/

theorem lookupN_setPhase (jobs : List (Nat × Job)) (jid : Nat) (ph : JobPhase) (k : Nat) :
    lookupN (setPhase jobs jid ph) k =
      (lookupN jobs k).map (fun j => if k = jid then { j with phase := ph } else j) := by
  induction jobs with
  | nil => rfl
  | cons q jobs ih =>
      rw [setPhase, List.map_cons, lookupN_cons, lookupN_cons]
      by_cases hk : q.1 = k
      · rw [if_pos hk, if_pos hk]
        subst hk
        by_cases hj : q.1 = jid
        · simp [hj]
        · simp [hj]
      · rw [if_neg hk, if_neg hk]
        exact ih

theorem hasPendingRender_setPhase_cancelled (st : AMState) (jid : Nat) (x : Nat)
    (h : hasPendingRender { st with jobs := setPhase st.jobs jid JobPhase.cancelled } x = true) :
    hasPendingRender st x = true := by
  unfold hasPendingRender at h ⊢
  dsimp only at h
  cases ht : lookupN st.renderPromises x with
  | none =>
      rw [ht] at h
      exact h
  | some j2 =>
      rw [ht] at h
      dsimp only at h ⊢
      rw [lookupN_setPhase] at h
      cases hj : lookupN st.jobs j2 with
      | none =>
          rw [hj] at h
          simp at h
      | some job =>
          rw [hj] at h
          dsimp only [Option.map] at h
          by_cases hx : j2 = jid
          · rw [if_pos hx] at h
            simp at h
          · rw [if_neg hx] at h
            exact h

theorem cleanupDerivedStep_eq_pending (st : AMState) (d : Component)
    (hp : hasPendingRender st d.id = true) (jid : Nat)
    (hjid : lookupN st.renderPromises d.id = some jid) :
    cleanupDerivedStep st d =
      ({ st with jobs := setPhase st.jobs jid JobPhase.cancelled },
        [Act.cancelRender d.id, Act.removeFileWithin d.assetPath]) := by
  unfold cleanupDerivedStep
  rw [if_pos hp, hjid]
  rfl

theorem cleanupDerivedStep_eq_not_pending (st : AMState) (d : Component)
    (hp : hasPendingRender st d.id = false) :
    cleanupDerivedStep st d = (st, [Act.removeFileWithin d.assetPath]) := by
  unfold cleanupDerivedStep
  rw [hp]
  rfl

theorem cleanupDerivedStep_pending_mono (st : AMState) (d : Component) (x : Nat)
    (h : hasPendingRender (cleanupDerivedStep st d).1 x = true) :
    hasPendingRender st x = true := by
  by_cases hp : hasPendingRender st d.id = true
  · cases hjid : lookupN st.renderPromises d.id with
    | none =>
        unfold hasPendingRender at hp
        rw [hjid] at hp
        simp at hp
    | some jid =>
        rw [cleanupDerivedStep_eq_pending st d hp jid hjid] at h
        exact hasPendingRender_setPhase_cancelled st jid x h
  · rw [Bool.not_eq_true] at hp
    rw [cleanupDerivedStep_eq_not_pending st d hp] at h
    exact h

theorem cleanupDerivedStep_kills_pending (st : AMState) (d : Component) :
    hasPendingRender (cleanupDerivedStep st d).1 d.id = false := by
  by_cases hp : hasPendingRender st d.id = true
  · cases hjid : lookupN st.renderPromises d.id with
    | none =>
        unfold hasPendingRender at hp
        rw [hjid] at hp
        simp at hp
    | some jid =>
        rw [cleanupDerivedStep_eq_pending st d hp jid hjid]
        unfold hasPendingRender
        dsimp only
        rw [hjid]
        dsimp only
        rw [lookupN_setPhase]
        cases hj : lookupN st.jobs jid with
        | none => rfl
        | some job => simp
  · rw [Bool.not_eq_true] at hp
    rw [cleanupDerivedStep_eq_not_pending st d hp]
    exact hp

theorem lookupN_ne_of_snd_nodup {α : Type} (l : List (Nat × α))
    (hnd : (l.map Prod.snd).Nodup) (k1 k2 : Nat) (v1 v2 : α)
    (h1 : lookupN l k1 = some v1) (h2 : lookupN l k2 = some v2) (hk : k1 ≠ k2) : v1 ≠ v2 := by
  induction l with
  | nil => simp [lookupN_nil] at h1
  | cons p l ih =>
      rw [List.map_cons, List.nodup_cons] at hnd
      rw [lookupN_cons] at h1 h2
      by_cases hp1 : p.1 = k1
      · rw [if_pos hp1] at h1
        injection h1 with h1
        by_cases hp2 : p.1 = k2
        · exact absurd (hp1.symm.trans hp2) hk
        · rw [if_neg hp2] at h2
          intro hv
          apply hnd.1
          rw [h1, hv]
          exact List.mem_map.mpr ⟨(k2, v2), mem_of_lookupN_eq l k2 v2 h2, rfl⟩
      · rw [if_neg hp1] at h1
        by_cases hp2 : p.1 = k2
        · rw [if_pos hp2] at h2
          injection h2 with h2
          intro hv
          apply hnd.1
          rw [h2, ← hv]
          exact List.mem_map.mpr ⟨(k1, v1), mem_of_lookupN_eq l k1 v1 h1, rfl⟩
        · rw [if_neg hp2] at h2
          exact ih hnd.2 h1 h2

theorem cleanupDerivedStep_pending_other (st : AMState) (d : Component) (x : Nat)
    (hx : x ≠ d.id) (hjids : (st.renderPromises.map Prod.snd).Nodup) :
    hasPendingRender (cleanupDerivedStep st d).1 x = hasPendingRender st x := by
  by_cases hp : hasPendingRender st d.id = true
  · cases hjid : lookupN st.renderPromises d.id with
    | none =>
        unfold hasPendingRender at hp
        rw [hjid] at hp
        simp at hp
    | some jid =>
        rw [cleanupDerivedStep_eq_pending st d hp jid hjid]
        unfold hasPendingRender
        dsimp only
        cases ht : lookupN st.renderPromises x with
        | none => rfl
        | some j2 =>
            dsimp only
            rw [lookupN_setPhase]
            have hne : j2 ≠ jid := lookupN_ne_of_snd_nodup _ hjids x d.id j2 jid ht hjid hx
            cases hj : lookupN st.jobs j2 with
            | none => rfl
            | some job => simp [hne]
  · rw [Bool.not_eq_true] at hp
    rw [cleanupDerivedStep_eq_not_pending st d hp]

theorem cleanupDerived_run_pending_mono (ds : List Component) :
    ∀ (st : AMState) (x : Nat),
      hasPendingRender (runList cleanupDerivedStep st ds).1 x = true →
      hasPendingRender st x = true := by
  induction ds with
  | nil => intro st x h; exact h
  | cons d ds ih =>
      intro st x h
      rw [runList_cons] at h
      exact cleanupDerivedStep_pending_mono st d x (ih _ x h)

theorem cleanupDerived_run_kills_pending (ds : List Component) :
    ∀ st : AMState, ∀ d ∈ ds,
      hasPendingRender (runList cleanupDerivedStep st ds).1 d.id = false := by
  induction ds with
  | nil => intro st d hd; simp at hd
  | cons d0 ds ih =>
      intro st d hd
      rw [runList_cons]
      rcases List.mem_cons.mp hd with rfl | hd
      · dsimp only
        by_cases hfin : hasPendingRender
            (runList cleanupDerivedStep (cleanupDerivedStep st d).1 ds).1 d.id = true
        · have h2 := cleanupDerived_run_pending_mono ds _ d.id hfin
          rw [cleanupDerivedStep_kills_pending st d] at h2
          exact absurd h2 (by simp)
        · rw [Bool.not_eq_true] at hfin
          exact hfin
      · exact ih _ d hd

theorem cleanupDerived_run_cancel_mem (ds : List Component) :
    ∀ (st : AMState) (y : Nat),
      Act.cancelRender y ∈ (runList cleanupDerivedStep st ds).2 →
      hasPendingRender st y = true := by
  induction ds with
  | nil => intro st y h; simp [runList_nil] at h
  | cons d ds ih =>
      intro st y h
      rw [runList_cons] at h
      rcases List.mem_append.mp h with hm | hm
      · by_cases hp : hasPendingRender st d.id = true
        · cases hjid : lookupN st.renderPromises d.id with
          | none =>
              unfold hasPendingRender at hp
              rw [hjid] at hp
              simp at hp
          | some jid =>
              rw [cleanupDerivedStep_eq_pending st d hp jid hjid] at hm
              dsimp only at hm
              rcases List.mem_cons.mp hm with heq | hm
              · injection heq with h1
                subst h1
                exact hp
              · rcases List.mem_singleton.mp hm with heq
                simp at heq
        · rw [Bool.not_eq_true] at hp
          rw [cleanupDerivedStep_eq_not_pending st d hp] at hm
          dsimp only at hm
          rcases List.mem_singleton.mp hm with heq
          simp at heq
      · have h2 := ih (cleanupDerivedStep st d).1 y hm
        exact cleanupDerivedStep_pending_mono st d y h2

theorem cleanupDerived_run_cancel_of_pending (ds : List Component) :
    ∀ st : AMState,
      (st.renderPromises.map Prod.snd).Nodup →
      (ds.map Component.id).Nodup →
      ∀ d ∈ ds, hasPendingRender st d.id = true →
        Act.cancelRender d.id ∈ (runList cleanupDerivedStep st ds).2 := by
  induction ds with
  | nil => intro st _ _ d hd; simp at hd
  | cons d0 ds ih =>
      intro st hsnd hids d hd hp
      rw [runList_cons]
      rcases List.mem_cons.mp hd with rfl | hd
      · cases hjid : lookupN st.renderPromises d.id with
        | none =>
            unfold hasPendingRender at hp
            rw [hjid] at hp
            simp at hp
        | some jid =>
            rw [cleanupDerivedStep_eq_pending st d hp jid hjid]
            exact List.mem_append.mpr (Or.inl (List.mem_cons_self _ _))
      · rw [List.map_cons, List.nodup_cons] at hids
        have hne : d.id ≠ d0.id := by
          intro he
          exact hids.1 (he ▸ List.mem_map.mpr ⟨d, hd, rfl⟩)
        have hpend2 : hasPendingRender (cleanupDerivedStep st d0).1 d.id = true := by
          rw [cleanupDerivedStep_pending_other st d0 d.id hne hsnd]
          exact hp
        have hsnd2 : ((cleanupDerivedStep st d0).1.renderPromises.map Prod.snd).Nodup := by
          rw [cleanupDerivedStep_renderPromises]
          exact hsnd
        exact List.mem_append.mpr (Or.inr (ih _ hsnd2 hids.2 d hd hpend2))

theorem cleanupDerived_run_no_cancel (ds : List Component) :
    ∀ st : AMState, (∀ d ∈ ds, hasPendingRender st d.id = false) →
      ∀ y : Nat, Act.cancelRender y ∉ (runList cleanupDerivedStep st ds).2 := by
  induction ds with
  | nil => intro st h y hm; simp [runList_nil] at hm
  | cons d ds ih =>
      intro st h y hm
      rw [runList_cons] at hm
      have hd := h d (List.mem_cons_self _ _)
      rw [cleanupDerivedStep_eq_not_pending st d hd] at hm
      dsimp only at hm
      rcases List.mem_append.mp hm with hm | hm
      · rcases List.mem_singleton.mp hm with heq
        simp at heq
      · exact ih st (fun d2 hd2 => h d2 (List.mem_cons_of_mem _ hd2)) y hm

theorem cleanupDerived_run_removeFile (ds : List Component) :
    ∀ st : AMState, ∀ d ∈ ds,
      Act.removeFileWithin d.assetPath ∈ (runList cleanupDerivedStep st ds).2 := by
  induction ds with
  | nil => intro st d hd; simp at hd
  | cons d0 ds ih =>
      intro st d hd
      rw [runList_cons]
      rcases List.mem_cons.mp hd with rfl | hd
      · refine List.mem_append.mpr (Or.inl ?_)
        unfold cleanupDerivedStep
        dsimp only
        exact List.mem_append.mpr (Or.inr (List.mem_singleton.mpr rfl))
      · exact List.mem_append.mpr (Or.inr (ih _ d hd))

theorem cleanupDerivedStep_actions (st : AMState) (d : Component) (a : Act)
    (ha : a ∈ (cleanupDerivedStep st d).2) :
    a = Act.cancelRender d.id ∨ a = Act.removeFileWithin d.assetPath := by
  unfold cleanupDerivedStep at ha
  dsimp only at ha
  rcases List.mem_append.mp ha with hm | hm
  · by_cases hp : hasPendingRender st d.id = true
    · rw [if_pos hp] at hm
      dsimp only at hm
      rcases List.mem_singleton.mp hm with rfl
      exact Or.inl rfl
    · rw [if_neg hp] at hm
      simp at hm
  · rcases List.mem_singleton.mp hm with rfl
    exact Or.inr rfl

/-- C8: for every basic component id, derived-component cleanup cancels a
derived component's render iff the in-flight table lookup shows a
still-pending job (a settled- or already-cancelled-but-not-yet-cleared job is
not cancelled again), it unconditionally requests deletion of each derived
component's artifact path (on both the first and an immediate second call),
and it is idempotent: a second consecutive call for the same basic component
id issues no cancellation at all and never records an error. -/
theorem c8_cleanup_idempotent (env : Env) (st : AMState) (cid : Nat)
    (hsnd : (st.renderPromises.map Prod.snd).Nodup)
    (hids : ((env.derived cid).map Component.id).Nodup) :
    (∀ d ∈ env.derived cid,
        (Act.cancelRender d.id ∈ (cleanupDerivedComponents env st cid).2
          ↔ hasPendingRender st d.id = true)
        ∧ Act.removeFileWithin d.assetPath ∈ (cleanupDerivedComponents env st cid).2
        ∧ Act.removeFileWithin d.assetPath
            ∈ (cleanupDerivedComponents env (cleanupDerivedComponents env st cid).1 cid).2)
    ∧ (∀ y : Nat, Act.cancelRender y
          ∉ (cleanupDerivedComponents env (cleanupDerivedComponents env st cid).1 cid).2)
    ∧ (∀ (lid : Nat) (msg : String),
        Act.addError lid msg ∉ (cleanupDerivedComponents env st cid).2
        ∧ Act.addError lid msg
            ∉ (cleanupDerivedComponents env (cleanupDerivedComponents env st cid).1 cid).2) := by
  unfold cleanupDerivedComponents
  refine ⟨?_, ?_, ?_⟩
  · intro d hd
    exact ⟨⟨fun hm => cleanupDerived_run_cancel_mem _ _ _ hm,
      fun hp => cleanupDerived_run_cancel_of_pending _ _ hsnd hids d hd hp⟩,
      cleanupDerived_run_removeFile _ _ d hd,
      cleanupDerived_run_removeFile _ _ d hd⟩
  · intro y
    exact cleanupDerived_run_no_cancel _ _
      (fun d hd => cleanupDerived_run_kills_pending _ _ d hd) y
  · intro lid msg
    have hno : ∀ (s : AMState) (a : Act),
        a ∈ (runList cleanupDerivedStep s (env.derived cid)).2 →
          a ≠ Act.addError lid msg := by
      intro s a ha
      refine runList_actions cleanupDerivedStep (fun a => a ≠ Act.addError lid msg)
        ?_ _ s a ha
      intro s2 d a2 ha2
      rcases cleanupDerivedStep_actions s2 d a2 ha2 with rfl | rfl <;> simp
    exact ⟨fun hm => hno st _ hm rfl, fun hm => hno _ _ hm rfl⟩

/-- C8 witness: basic component 0 derives `comp40`, whose render (job 0) is
pending in `stJob40`: the first cleanup call cancels it (iff discharged
concretely), and a second consecutive call issues no cancellation. -/
theorem c8_cleanup_idempotent_witness :
    (Act.cancelRender comp40.id ∈ (cleanupDerivedComponents envSimple stJob40 0).2
        ↔ hasPendingRender stJob40 comp40.id = true)
    ∧ Act.cancelRender comp40.id
        ∉ (cleanupDerivedComponents envSimple
            (cleanupDerivedComponents envSimple stJob40 0).1 0).2 := by
  have h := c8_cleanup_idempotent envSimple stJob40 0 (by decide) (by decide)
  exact ⟨(h.1 comp40 (by decide)).1, h.2.1 comp40.id⟩

/-! ### C5: reset escalation -/

theorem specPassStep_fst (env : Env) (specs : List (Nat × List Spec)) (p : Nat × Layer) :
    (specPassStep env specs p).1
      = if (validSpecs env p.2).isEmpty then specs
        else insertN specs (Layer.id p.2) (validSpecs env p.2) := rfl

theorem specPass_run (env : Env) (dl : List (Nat × Layer)) :
    ∀ acc : List (Nat × List Spec),
      (∀ p ∈ dl, Layer.id p.2 = p.1) →
      keysNodup dl →
      (∀ k ∈ acc.map Prod.fst, k ∉ dl.map Prod.fst) →
      keysNodup acc →
      (runList (specPassStep env) acc dl).1
        = acc ++ dl.filterMap (fun p =>
            if (validSpecs env p.2).isEmpty then none
            else some (p.1, validSpecs env p.2)) := by
  induction dl with
  | nil =>
      intro acc _ _ _ _
      simp [runList_nil]
  | cons p dl ih =>
      intro acc hkey hnd hdisj haccnd
      rw [runList_cons, List.filterMap_cons]
      rw [keysNodup_def, List.map_cons, List.nodup_cons] at hnd
      have hkeyp := hkey p (List.mem_cons_self _ _)
      by_cases hv : (validSpecs env p.2).isEmpty = true
      · rw [hv]
        dsimp only
        have hstep : (specPassStep env acc p).1 = acc := by
          rw [specPassStep_fst, if_pos hv]
        rw [hstep]
        refine ih acc (fun q hq => hkey q (List.mem_cons_of_mem _ hq))
          ((keysNodup_def _).mpr hnd.2) ?_ haccnd
        intro k hk
        have h2 := hdisj k hk
        rw [List.map_cons] at h2
        exact fun hm => h2 (List.mem_cons_of_mem _ hm)
      · rw [Bool.not_eq_true] at hv
        rw [hv]
        dsimp only
        have hnotacc : p.1 ∉ acc.map Prod.fst := by
          intro hm
          exact hdisj p.1 hm (by rw [List.map_cons]; exact List.mem_cons_self _ _)
        have hstep : (specPassStep env acc p).1 = acc ++ [(p.1, validSpecs env p.2)] := by
          rw [specPassStep_fst, hv]
          rw [if_neg (fun h => Bool.false_ne_true h)]
          rw [hkeyp, insertN, eraseN_of_not_mem_keys _ _ hnotacc]
        rw [hstep]
        have hres := ih (acc ++ [(p.1, validSpecs env p.2)])
          (fun q hq => hkey q (List.mem_cons_of_mem _ hq))
          ((keysNodup_def _).mpr hnd.2) ?_ ?_
        · rw [hres, List.append_assoc]
          rfl
        · intro k hk
          rw [List.map_append] at hk
          rcases List.mem_append.mp hk with hk | hk
          · have h2 := hdisj k hk
            rw [List.map_cons] at h2
            exact fun hm => h2 (List.mem_cons_of_mem _ hm)
          · simp only [List.map_cons, List.map_nil, List.mem_singleton] at hk
            subst hk
            exact hnd.1
        · rw [keysNodup_def, List.map_append, List.nodup_append]
          refine ⟨haccnd, by simp, ?_⟩
          intro a ha hb
          simp only [List.map_cons, List.map_nil, List.mem_singleton] at hb
          subst hb
          exact hnotacc ha

theorem specPass_fst (env : Env) (dl : List (Nat × Layer))
    (hkey : ∀ p ∈ dl, Layer.id p.2 = p.1) (hnd : keysNodup dl) :
    (specPass env dl).1
      = dl.filterMap (fun p =>
          if (validSpecs env p.2).isEmpty then none
          else some (p.1, validSpecs env p.2)) := by
  unfold specPass
  rw [specPass_run env dl [] hkey hnd (by simp) keysNodup_nil]
  simp

theorem resetRequiredB_iff (env : Env) (dl : List (Nat × Layer))
    (hkey : ∀ p ∈ dl, Layer.id p.2 = p.1) (hnd : keysNodup dl) :
    resetRequiredB dl (specPass env dl).1 = escalationCondB env dl := by
  rw [specPass_fst env dl hkey hnd]
  have h1 : resetRequiredB dl (dl.filterMap (fun p =>
      if (validSpecs env p.2).isEmpty then none
      else some (p.1, validSpecs env p.2))) = true → escalationCondB env dl = true := by
    intro hA
    rcases List.any_eq_true.mp hA with ⟨q, hq, hg⟩
    rcases List.mem_filterMap.mp hq with ⟨p, hp, hf⟩
    by_cases hv : (validSpecs env p.2).isEmpty = true
    · rw [if_pos hv] at hf
      exact absurd hf (by simp)
    · rw [if_neg hv] at hf
      injection hf with hf
      subst hf
      dsimp only at hg
      obtain ⟨k, layer⟩ := p
      have hlook : lookupN dl k = some layer := lookupN_eq_of_mem dl k layer hnd hp
      rw [hlook] at hg
      refine List.any_eq_true.mpr ⟨(k, layer), hp, ?_⟩
      dsimp only
      rw [Bool.not_eq_true] at hv
      rw [hv]
      simpa using hg
  have h2 : escalationCondB env dl = true →
      resetRequiredB dl (dl.filterMap (fun p =>
        if (validSpecs env p.2).isEmpty then none
        else some (p.1, validSpecs env p.2))) = true := by
    intro hB
    rcases List.any_eq_true.mp hB with ⟨p, hp, hesc⟩
    obtain ⟨k, layer⟩ := p
    dsimp only at hesc
    rw [Bool.and_eq_true] at hesc
    have hv : (validSpecs env layer).isEmpty = false := by
      rcases hesc with ⟨hv, _⟩
      cases hve : (validSpecs env layer).isEmpty
      · rfl
      · rw [hve] at hv
        simp at hv
    refine List.any_eq_true.mpr ⟨(k, validSpecs env layer), ?_, ?_⟩
    · refine List.mem_filterMap.mpr ⟨(k, layer), hp, ?_⟩
      rw [hv]
      rfl
    · dsimp only
      rw [lookupN_eq_of_mem dl k layer hnd hp]
      exact hesc.2
  cases hA : resetRequiredB dl (dl.filterMap (fun p =>
      if (validSpecs env p.2).isEmpty then none
      else some (p.1, validSpecs env p.2))) with
  | true => rw [h1 hA]
  | false =>
      cases hB : escalationCondB env dl with
      | false => rfl
      | true =>
          have := h2 hB
          rw [hA] at this
          exact absurd this (by simp)

theorem handleLayersSection_escalation (env : Env) (doc : Document) (st : AMState)
    (lcs : List (Nat × LayerChange))
    (hr : resetRequiredB (dependentLayersOf lcs) (specPass env (dependentLayersOf lcs)).1
        = true) :
    handleLayersSection env doc st lcs
      = ((reset env doc st).1,
          (specPass env (dependentLayersOf lcs)).2 ++ (reset env doc st).2) := by
  unfold handleLayersSection
  rw [if_pos hr]

theorem requestRender_actions (docId : Nat) (st : AMState) (c : Component) (a : Act)
    (ha : a ∈ (requestRender docId st c).2) :
    a = Act.renderStart c.id ∨ a = Act.emitActive docId := by
  rw [requestRender_eq] at ha
  dsimp only at ha
  rcases List.mem_cons.mp ha with rfl | hm
  · exact Or.inl rfl
  · rcases (mem_ite_list _ _ _ _).mp hm with ⟨_, hmem⟩ | ⟨_, hmem⟩
    · exact Or.inr (List.mem_singleton.mp hmem)
    · simp at hmem

theorem errActs_addError (lid : Nat) (rs : List SpecResult) :
    ∀ acc : List Act, (∀ a ∈ acc, ∃ msg, a = Act.addError lid msg) →
      ∀ a ∈ rs.foldl (fun acc r =>
          match r.component with
          | some _ => acc
          | none => acc ++ r.errors.map (Act.addError lid)) acc,
        ∃ msg, a = Act.addError lid msg := by
  induction rs with
  | nil => intro acc hacc a ha; exact hacc a ha
  | cons r rs ih =>
      intro acc hacc a ha
      rw [List.foldl_cons] at ha
      cases hc : r.component with
      | some s =>
          rw [hc] at ha
          exact ih acc hacc a ha
      | none =>
          rw [hc] at ha
          refine ih _ ?_ a ha
          intro a2 ha2
          rcases List.mem_append.mp ha2 with hm | hm
          · exact hacc a2 hm
          · rcases List.mem_map.mp hm with ⟨msg, _, rfl⟩
            exact ⟨msg, rfl⟩

theorem specPassStep_actions (env : Env) (specs : List (Nat × List Spec)) (p : Nat × Layer)
    (a : Act) (ha : a ∈ (specPassStep env specs p).2) :
    a = Act.removeErrors p.1 ∨ ∃ msg, a = Act.addError (Layer.id p.2) msg := by
  unfold specPassStep at ha
  dsimp only at ha
  rcases List.mem_cons.mp ha with rfl | hm
  · exact Or.inl rfl
  · exact Or.inr (errActs_addError (Layer.id p.2) (env.findAllComponents p.2) []
      (by intro a2 ha2; simp at ha2) a hm)

theorem specPass_no_removeAllErrors (env : Env) (dl : List (Nat × Layer)) :
    Act.removeAllErrors ∉ (specPass env dl).2 := by
  intro hm
  have h2 := runList_actions (specPassStep env) (fun a => a ≠ Act.removeAllErrors)
    (fun s p a ha => by
      rcases specPassStep_actions env s p a ha with rfl | ⟨msg, rfl⟩ <;> simp)
    dl [] Act.removeAllErrors hm
  exact h2 rfl

theorem cleanupDerivedComponents_actions (env : Env) (st : AMState) (cid : Nat) (a : Act)
    (ha : a ∈ (cleanupDerivedComponents env st cid).2) :
    (∃ y, a = Act.cancelRender y) ∨ (∃ pth, a = Act.removeFileWithin pth) := by
  unfold cleanupDerivedComponents at ha
  refine runList_actions cleanupDerivedStep
    (fun a => (∃ y, a = Act.cancelRender y) ∨ (∃ pth, a = Act.removeFileWithin pth))
    ?_ _ st a ha
  intro s d a2 ha2
  rcases cleanupDerivedStep_actions s d a2 ha2 with rfl | rfl
  · exact Or.inl ⟨d.id, rfl⟩
  · exact Or.inr ⟨d.assetPath, rfl⟩

theorem removeLayerStep_no_removeAllErrors (env : Env) (st : AMState) (lid : Nat) :
    Act.removeAllErrors ∉ (removeLayerStep env st lid).2 := by
  intro hm
  unfold removeLayerStep at hm
  dsimp only at hm
  rcases List.mem_append.mp hm with hm | hm
  · have h2 := runList_actions
      (fun (st : AMState) (cid : Nat) =>
        let r1 := cleanupDerivedComponents env st cid
        ({ r1.1 with cm := removeComponent r1.1.cm cid }, r1.2))
      (fun a => a ≠ Act.removeAllErrors)
      (fun s cid a ha => by
        dsimp only at ha
        rcases cleanupDerivedComponents_actions env s cid a ha with ⟨y, rfl⟩ | ⟨pth, rfl⟩ <;>
          simp)
      (componentIdsByLayer st.cm lid) st Act.removeAllErrors hm
    exact h2 rfl
  · rcases List.mem_singleton.mp hm with heq
    simp at heq

theorem processSpecs_no_removeAllErrors (env : Env) (docId lid : Nat) (st : AMState)
    (specs : List Spec) :
    Act.removeAllErrors ∉ (processSpecs env docId lid st specs).2 := by
  intro hm
  unfold processSpecs at hm
  have h2 := runList_actions
    (fun (st : AMState) (spec : Spec) =>
      match addComponent env st.cm lid spec with
      | Except.ok q =>
          runList (fun st d => requestRender docId st d) { st with cm := q.2 }
            (env.derived q.1)
      | Except.error msg => (st, [Act.addError lid msg]))
    (fun a => a ≠ Act.removeAllErrors)
    (fun s spec a ha => by
      dsimp only at ha
      cases hadd : addComponent env s.cm lid spec with
      | ok q =>
          rw [hadd] at ha
          dsimp only at ha
          have h3 := runList_actions (fun (st : AMState) (d : Component) => requestRender docId st d)
            (fun a => a ≠ Act.removeAllErrors)
            (fun s2 d a2 ha2 => by
              rcases requestRender_actions docId s2 d a2 ha2 with rfl | rfl <;> simp)
            (env.derived q.1) _ a ha
          exact h3
      | error msg =>
          rw [hadd] at ha
          dsimp only at ha
          rcases List.mem_singleton.mp ha with rfl
          simp)
    specs st Act.removeAllErrors hm
  exact h2 rfl

theorem updateLayerStep_no_removeAllErrors (env : Env) (docId : Nat) (st : AMState)
    (p : Nat × List Spec) :
    Act.removeAllErrors ∉ (updateLayerStep env docId st p).2 := by
  intro hm
  unfold updateLayerStep at hm
  dsimp only at hm
  rcases List.mem_append.mp hm with hm | hm
  · have h2 := runList_actions
      (fun (st : AMState) (cid : Nat) =>
        let r := cleanupDerivedComponents env st cid
        ({ r.1 with cm := removeComponent r.1.cm cid }, r.2))
      (fun a => a ≠ Act.removeAllErrors)
      (fun s cid a ha => by
        dsimp only at ha
        rcases cleanupDerivedComponents_actions env s cid a ha with ⟨y, rfl⟩ | ⟨pth, rfl⟩ <;>
          simp)
      (componentIdsByLayer st.cm p.1) st Act.removeAllErrors hm
    exact h2 rfl
  · exact processSpecs_no_removeAllErrors env docId p.1 _ p.2 hm

theorem handleLayersSection_no_escalation_no_reset (env : Env) (doc : Document) (st : AMState)
    (lcs : List (Nat × LayerChange))
    (hr : resetRequiredB (dependentLayersOf lcs) (specPass env (dependentLayersOf lcs)).1
        = false) :
    Act.removeAllErrors ∉ (handleLayersSection env doc st lcs).2 := by
  intro hm
  unfold handleLayersSection at hm
  rw [if_neg (by rw [hr]; exact fun h => Bool.false_ne_true h)] at hm
  dsimp only at hm
  rcases List.mem_append.mp hm with hm | hm
  · rcases List.mem_append.mp hm with hm | hm
    · rcases List.mem_append.mp hm with hm | hm
      · exact specPass_no_removeAllErrors env _ hm
      · have h2 := runList_actions (removeLayerStep env) (fun a => a ≠ Act.removeAllErrors)
          (fun s lid a ha => by
            intro hEq
            subst hEq
            exact removeLayerStep_no_removeAllErrors env s lid ha)
          ((lcs.filter (fun p => p.2.type == ChangeType.removed)).map (·.1)) st
          Act.removeAllErrors hm
        exact h2 rfl
    · have h2 := runList_actions (updateLayerStep env doc.id) (fun a => a ≠ Act.removeAllErrors)
        (fun s p a ha => by
          intro hEq
          subst hEq
          exact updateLayerStep_no_removeAllErrors env doc.id s p ha)
        _ _ Act.removeAllErrors hm
      exact h2 rfl
  · rcases List.mem_singleton.mp hm with heq
    simp at heq

theorem removeAllErrors_mem_init (env : Env) (doc : Document) (st : AMState) :
    Act.removeAllErrors ∈ (init env doc st).2 := by
  unfold init
  dsimp only
  simp

theorem handleChange_layers_only (env : Env) (doc : Document) (st : AMState)
    (lcs : List (Nat × LayerChange)) :
    handleChange env doc st { file := none, resolution := false, layers := some lcs }
      = handleLayersSection env doc st lcs := rfl

/-- C5: for a pure layer-change notification (no file change, no resolution
change), handling escalates to a full reset iff some layer in the dependency
closure that yielded at least one valid specification is an adjustment layer
or has a new specification flagged "default" (`escalationCondB`, stated from
the spec's words; a full reset is observable as the `removeAllErrors` call
that only re-initialization performs); when escalation occurs, processing
stops after the closure/parse pass and the reset — no removal pass, no update
pass and no renders for the notification's specifications; when the condition
fails, no full reset is triggered. -/
theorem c5_reset_escalation (env : Env) (doc : Document) (st : AMState)
    (lcs : List (Nat × LayerChange)) (ch : Change)
    (hch : ch = { file := none, resolution := false, layers := some lcs }) :
    ((Act.removeAllErrors ∈ (handleChange env doc st ch).2)
        ↔ escalationCondB env (dependentLayersOf lcs) = true)
    ∧ (escalationCondB env (dependentLayersOf lcs) = true →
        handleChange env doc st ch
          = ((reset env doc st).1,
              (specPass env (dependentLayersOf lcs)).2 ++ (reset env doc st).2)) := by
  subst hch
  rw [handleChange_layers_only]
  have hkey : ∀ p ∈ dependentLayersOf lcs, Layer.id p.2 = p.1 :=
    keyed_dependentLayersOf_aux lcs [] (by intro p hp; simp at hp)
  have hnd : keysNodup (dependentLayersOf lcs) :=
    keysNodup_dependentLayersOf_aux lcs [] keysNodup_nil
  have hiff := resetRequiredB_iff env (dependentLayersOf lcs) hkey hnd
  constructor
  · constructor
    · intro hm
      cases hB : escalationCondB env (dependentLayersOf lcs) with
      | true => rfl
      | false =>
          have hrf : resetRequiredB (dependentLayersOf lcs)
              (specPass env (dependentLayersOf lcs)).1 = false := by
            rw [hiff, hB]
          exact absurd hm (handleLayersSection_no_escalation_no_reset env doc st lcs hrf)
    · intro hes
      have hrt : resetRequiredB (dependentLayersOf lcs)
          (specPass env (dependentLayersOf lcs)).1 = true := by
        rw [hiff, hes]
      rw [handleLayersSection_escalation env doc st lcs hrt]
      refine List.mem_append.mpr (Or.inr ?_)
      unfold reset
      dsimp only
      exact List.mem_append.mpr (Or.inr (removeAllErrors_mem_init env doc _))
  · intro hes
    have hrt : resetRequiredB (dependentLayersOf lcs)
        (specPass env (dependentLayersOf lcs)).1 = true := by
      rw [hiff, hes]
    exact handleLayersSection_escalation env doc st lcs hrt

/-- C5 witness: a change touching only the adjustment layer 9 (which parses to
one valid specification) escalates: the handling trace performs the full
reset's `removeAllErrors`, and the escalation condition evaluates to true. -/
theorem c5_reset_escalation_witness :
    (Act.removeAllErrors
        ∈ (handleChange envAdj docEmpty stReady
            { file := none, resolution := false, layers := some lcsAdj }).2)
      ∧ escalationCondB envAdj (dependentLayersOf lcsAdj) = true := by
  have h := c5_reset_escalation envAdj docEmpty stReady lcsAdj
    { file := none, resolution := false, layers := some lcsAdj } rfl
  exact ⟨h.1.mpr rfl, rfl⟩
